import Mathlib

/-!
# product-apim-tooling: export of APIs and applications

A shallow embedding of `import-export-cli/cmd/exportAPI.go`,
`import-export-cli/impl/exportApp.go`, the validations of
`import-export-cli/integration/testutils/app_testUtils.go` and the test
`TestDeleteAppSuperTenantUser` of `import-export-cli/integration/app_test.go`.

The Go code is sequential glue around calls into package `utils`, the HTTP client and
the file system.  Every such call is recorded as an `Event` in a trace, and its result
is read from an `Env` record, so a run of a function is a pure value: the trace of the
calls it made, in order, and how it ended (returned, exited, panicked).

Go strings are embedded as Lean strings, a Go `error` as the option of its text
(`none` is `nil`), a Go pointer as an option (`none` is `nil`), and a Go
`map[string]string` as a list of entries with distinct keys.
-/

namespace ApimTooling

/-! ## Go values -/

/-- A non-nil Go `error`, identified by the text of its `Error()` method. -/
abbrev GoError := String

/-- A Go `map[string]string`: entries with pairwise distinct keys. -/
structure GoMap where
  entries : List (String × String)
deriving DecidableEq, Repr

namespace GoMap

/-- The map made by `make(map[string]string)`. -/
def empty : GoMap := ⟨[]⟩

/-- The assignment `m[k] = v`: an entry for `k` is replaced, any other entry is kept. -/
def set (m : GoMap) (k v : String) : GoMap :=
  ⟨(k, v) :: m.entries.filter (fun p => p.1 != k)⟩

/-- The lookup `v, ok := m[k]`. -/
def get? (m : GoMap) (k : String) : Option String :=
  m.entries.lookup k

/-- The keys of the map. -/
def keys (m : GoMap) : List String :=
  m.entries.map Prod.fst

/-- The builtin `len(m)`. -/
def len (m : GoMap) : Nat :=
  m.entries.length

end GoMap

/-- What the code reads of a `resty.Response`: `StatusCode()`, `Status()`, `Body()`
(as bytes) and `Error()` (as printed by `%v`). -/
structure Response where
  StatusCode : Int
  Status : String
  Body : List Nat
  Error : String
deriving DecidableEq, Repr

/-- The part of `utils.ImportConfig` that the code sets. -/
structure ImportConfig where
  Update : Bool
  PreserveOwner : Bool
  SkipSubscriptions : Bool
  SkipKeys : Bool
deriving DecidableEq, Repr

/-- The part of `utils.DeployConfig` that the code sets. -/
structure DeployConfig where
  Import : ImportConfig
deriving DecidableEq, Repr

/-- The part of `utils.MetaData` that the code sets. -/
structure MetaData where
  Name : String
  Owner : String
  DeployConfig : DeployConfig
deriving DecidableEq, Repr

/-! ## The environment of the code -/

/-- Everything the two source files use and do not define: the constants and helpers of
package `utils`, `filepath.Join`, and the result of every call that leaves the process
(HTTP, file system, configuration). -/
structure Env where
  /-- Constant `utils.HeaderAuthorization`. -/
  HeaderAuthorization : String
  /-- Constant `utils.HeaderAccept`. -/
  HeaderAccept : String
  /-- Constant `utils.HeaderValueAuthBasicPrefix`. -/
  HeaderValueAuthBasicPrefix : String
  /-- Constant `utils.HeaderValueAuthBearerPrefix`. -/
  HeaderValueAuthBearerPrefix : String
  /-- Constant `utils.HeaderValueApplicationZip`. -/
  HeaderValueApplicationZip : String
  /-- Constant `utils.ApiImportExportProduct`. -/
  ApiImportExportProduct : String
  /-- Constant `utils.ExportDirectory`. -/
  ExportDirectory : String
  /-- Constant `utils.MetaFileApplication`. -/
  MetaFileApplication : String
  /-- Constant `utils.LogPrefixInfo`. -/
  LogPrefixInfo : String
  /-- Constant `utils.MainConfigFilePath`. -/
  MainConfigFilePath : String
  /-- Helper `utils.AppendSlashToString`. -/
  AppendSlashToString : String → String
  /-- Library function `filepath.Join`, on the list of its arguments. -/
  filepathJoin : List String → String
  /-- Result of `utils.GetDevPortalApplicationListEndpointOfEnv(env, configFile)`. -/
  GetDevPortalApplicationListEndpointOfEnv : String → String → String
  /-- Result of `utils.ExecutePreCommandWithBasicAuth(env, username, password)`:
  the encoded credentials, the API Manager endpoint and the error. -/
  ExecutePreCommandWithBasicAuth : String → String → String → String × String × Option GoError
  /-- Result of `utils.InvokeGETRequest(url, headers)`. -/
  InvokeGETRequest : String → GoMap → Option Response × Option GoError
  /-- Result of `utils.InvokeGETRequestWithMultipleQueryParams(queryParams, url, headers)`. -/
  InvokeGETRequestWithMultipleQueryParams :
    GoMap → String → GoMap → Option Response × Option GoError
  /-- Result of `GetAPIList(name, credentials, endpoint)`: the count and the error. -/
  GetAPIList : String → String → String → Nat × Option GoError
  /-- Whether `os.Stat(path)` fails with an error for which `os.IsNotExist` holds. -/
  osStatIsNotExist : String → Bool
  /-- Result of `os.Mkdir(path, perm)`. -/
  osMkdir : String → Nat → Option GoError
  /-- Result of `ioutil.WriteFile(path, data, perm)`. -/
  ioutilWriteFile : String → List Nat → Nat → Option GoError
  /-- Result of `utils.WriteResponseToTempZip(zipFilename, resp)`. -/
  WriteResponseToTempZip : String → Option Response → String × Option GoError
  /-- Result of `utils.CreateDirIfNotExist(path)`. -/
  CreateDirIfNotExist : String → Option GoError
  /-- Result of `IncludeMetaFileToZip(tempZip, finalZip, metaFile, metaData)`. -/
  IncludeMetaFileToZip : String → String → String → MetaData → Option GoError

/-! ## Traces -/

/-- One call that the code makes outside itself. -/
inductive Event where
  /-- Call `utils.Logln(args...)`. -/
  | Logln (args : List String)
  /-- Call `utils.Logf(format, args...)`. -/
  | Logf (format : String) (args : List String)
  /-- Text written to standard output. -/
  | Stdout (text : String)
  /-- Call `utils.ExecutePreCommandWithBasicAuth`. -/
  | ExecutePreCommandWithBasicAuth (environment username password : String)
  /-- Call `utils.InvokeGETRequest`. -/
  | InvokeGETRequest (url : String) (headers : GoMap)
  /-- Call `utils.InvokeGETRequestWithMultipleQueryParams`. -/
  | InvokeGETRequestWithMultipleQueryParams (queryParams : GoMap) (url : String)
      (headers : GoMap)
  /-- Call `GetAPIList`. -/
  | GetAPIList (name credentials endpoint : String)
  /-- Call `os.Stat`. -/
  | osStat (path : String)
  /-- Call `os.Mkdir`. -/
  | osMkdir (path : String) (perm : Nat)
  /-- Call `ioutil.WriteFile`. -/
  | ioutilWriteFile (path : String) (data : List Nat) (perm : Nat)
  /-- Call `utils.WriteResponseToTempZip`. -/
  | WriteResponseToTempZip (zipFilename : String) (resp : Option Response)
  /-- Call `utils.CreateDirIfNotExist`. -/
  | CreateDirIfNotExist (path : String)
  /-- Call `IncludeMetaFileToZip`. -/
  | IncludeMetaFileToZip (tempZip finalZip metaFile : String) (metaData : MetaData)
  /-- Call `utils.GetDevPortalApplicationListEndpointOfEnv`. -/
  | GetDevPortalApplicationListEndpointOfEnv (environment configFile : String)
  /-- Call `utils.HandleErrorAndExit`. -/
  | HandleErrorAndExit (msg : String) (err : GoError)
deriving DecidableEq, Repr

/-- How a run ends. -/
inductive Outcome (α : Type) where
  /-- The function returned. -/
  | ret (a : α)
  /-- The process exited with a non-zero status. -/
  | exited
  /-- A run-time panic (index out of range, nil dereference). -/
  | panicked
deriving DecidableEq, Repr

/-- A run: the calls made, in order, and the outcome. -/
structure Exec (α : Type) where
  trace : List Event
  out : Outcome α
deriving DecidableEq, Repr

namespace Exec

/-- Sequencing: the second part runs only if the first returned. -/
def bind {α β : Type} (m : Exec α) (f : α → Exec β) : Exec β :=
  match m.out with
  | .ret a => ⟨m.trace ++ (f a).trace, (f a).out⟩
  | .exited => ⟨m.trace, .exited⟩
  | .panicked => ⟨m.trace, .panicked⟩

instance : Monad Exec where
  pure a := ⟨[], .ret a⟩
  bind := Exec.bind

/-- A call that is recorded and returns `r`. -/
def call {α : Type} (e : Event) (r : α) : Exec α := ⟨[e], .ret r⟩

/-- A run-time panic. -/
def panic {α : Type} : Exec α := ⟨[], .panicked⟩

/-- Dereference of a pointer: a nil pointer panics. -/
def deref {α : Type} : Option α → Exec α
  | some a => pure a
  | none => panic

end Exec

open Exec

/-- The text `fmt.Println` writes: the operands separated by spaces, then a newline. -/
def fmtPrintln (args : List String) : Exec Unit :=
  call (.Stdout (" ".intercalate args ++ "\n")) ()

/-- Modelled from the spec: `utils.HandleErrorAndExit`, which is not in the source files;
local errors "terminate the command with a printed message and non-zero exit". The call
is recorded with its message and error, and the run ends there. -/
def HandleErrorAndExit {α : Type} (msg : String) (err : GoError) : Exec α :=
  ⟨[.HandleErrorAndExit msg err], .exited⟩

/-- The standard-output texts of a trace, in order. -/
def stdoutOf : List Event → List String
  | [] => []
  | .Stdout s :: es => s :: stdoutOf es
  | _ :: es => stdoutOf es

/-- One HTTP GET request as handed to the HTTP helpers of `utils`. -/
structure GetRequest where
  url : String
  headers : GoMap
  queryParams : Option GoMap
deriving DecidableEq, Repr

/-- The HTTP GET requests of a trace, in order. -/
def getRequestsOf : List Event → List GetRequest
  | [] => []
  | .InvokeGETRequest url h :: es => ⟨url, h, none⟩ :: getRequestsOf es
  | .InvokeGETRequestWithMultipleQueryParams q url h :: es => ⟨url, h, some q⟩ :: getRequestsOf es
  | _ :: es => getRequestsOf es

/-- The `ioutil.WriteFile` calls of a trace, as (path, data), in order. -/
def fileWritesOf : List Event → List (String × List Nat)
  | [] => []
  | .ioutilWriteFile p d _ :: es => (p, d) :: fileWritesOf es
  | _ :: es => fileWritesOf es

/-! ## cmd/exportAPI.go -/

/-- The flag variables of the `export-api` command. -/
structure ExportAPIFlags where
  exportAPIName : String
  exportAPIVersion : String
  exportEnvironment : String
  exportProvider : String
  exportAPICmdUsername : String
  exportAPICmdPassword : String
deriving DecidableEq, Repr

/-- Constant `exportAPICmdLiteral`. -/
def exportAPICmdLiteral : String := "export-api"

/-- The index expression `s[len(s)-1]`, read as the last character of `s`; it panics on
the empty string. A byte `0x2F` of a UTF-8 string is always the character `/`, so the
comparison of `string(s[len(s)-1])` with "/" is the comparison of the last character. -/
def lastIndex (s : String) : Exec Char :=
  match s.data.getLast? with
  | some c => pure c
  | none => panic

/-- Function `ExportAPI` of `cmd/exportAPI.go`. -/
def ExportAPI (env : Env) (name version provider apimEndpoint b64encodedCredentials : String) :
    Exec (Option Response) := do
  let last ← lastIndex apimEndpoint
  let apimEndpoint := if String.singleton last ≠ "/" then apimEndpoint ++ "/" else apimEndpoint
  let query := env.ApiImportExportProduct ++ "/export-api?name=" ++ name ++ "&version=" ++ version
  let query := if provider ≠ "" then query ++ "&provider=" ++ provider else query
  let url := apimEndpoint ++ query
  call (.Logln [env.LogPrefixInfo ++ "ExportAPI: URL:", url]) ()
  let headers := GoMap.empty
  let headers := headers.set env.HeaderAuthorization
    (env.HeaderValueAuthBasicPrefix ++ " " ++ b64encodedCredentials)
  let headers := headers.set env.HeaderAccept env.HeaderValueApplicationZip
  let (resp, err) ← call (.InvokeGETRequest url headers) (env.InvokeGETRequest url headers)
  match err with
  | some e => HandleErrorAndExit ("Error exporting API: " ++ name) e
  | none => pure resp

/-- Function `WriteToZip` of `cmd/exportAPI.go`. -/
def WriteToZip (env : Env) (exportAPIName exportAPIVersion exportEnvironment : String)
    (resp : Option Response) : Exec Unit := do
  let directory := env.filepathJoin [env.ExportDirectory, exportEnvironment]
  let notExist ← call (.osStat directory) (env.osStatIsNotExist directory)
  if notExist then
    let _ ← call (.osMkdir directory 0o777) (env.osMkdir directory 0o777)
  let zipFilename := exportAPIName ++ "_" ++ exportAPIVersion ++ ".zip"
  let pFile := env.filepathJoin [directory, zipFilename]
  let r ← deref resp
  let err ← call (.ioutilWriteFile pFile r.Body 0o644) (env.ioutilWriteFile pFile r.Body 0o644)
  match err with
  | some e => HandleErrorAndExit "Error creating zip archive" e
  | none => pure ()
  fmtPrintln ["Succesfully exported API!"]

/-- The `Run` function of `ExportAPICmd`. -/
def ExportAPICmd.Run (env : Env) (f : ExportAPIFlags) : Exec Unit := do
  call (.Logln [env.LogPrefixInfo ++ exportAPICmdLiteral ++ " called"]) ()
  let (b64encodedCredentials, apiManagerEndpoint, preCommandErr) ←
    call (.ExecutePreCommandWithBasicAuth f.exportEnvironment f.exportAPICmdUsername
        f.exportAPICmdPassword)
      (env.ExecutePreCommandWithBasicAuth f.exportEnvironment f.exportAPICmdUsername
        f.exportAPICmdPassword)
  match preCommandErr with
  | none =>
    let resp ← ExportAPI env f.exportAPIName f.exportAPIVersion f.exportProvider
      apiManagerEndpoint b64encodedCredentials
    let r ← deref resp
    call (.Logf "ResponseStatus: %v\n" [r.Status]) ()
    call (.Logf "Error: %v\n" [r.Error]) ()
    if r.StatusCode = 200 then
      WriteToZip env f.exportAPIName f.exportAPIVersion f.exportEnvironment resp
      let (numberOfAPIsExported, err) ←
        call (.GetAPIList f.exportAPIName b64encodedCredentials apiManagerEndpoint)
          (env.GetAPIList f.exportAPIName b64encodedCredentials apiManagerEndpoint)
      match err with
      | none => fmtPrintln ["Number of APIs exported:", toString numberOfAPIsExported]
      | some e => HandleErrorAndExit "Error getting list of APIs" e
    else if r.StatusCode = 500 then
      fmtPrintln ["Incorrect password"]
    else
      fmtPrintln ["Error exporting API:", r.Status]
  | some e =>
    fmtPrintln ["Error exporting API:" ++ e]

/-! ## impl/exportApp.go -/

/-- Library function `strings.ReplaceAll(s, old, new)` on the characters of the strings:
the non-overlapping occurrences of `old` are replaced from the left; `skip` counts the
characters of an occurrence still to be dropped. An empty `old` matches before every
character and at the end. -/
def stringsReplaceAllAux (old new : List Char) : List Char → Nat → List Char
  | [], _ => if old = [] then new else []
  | _ :: cs, skip + 1 => stringsReplaceAllAux old new cs skip
  | c :: cs, 0 =>
    if old = [] then new ++ c :: stringsReplaceAllAux old new cs 0
    else if old.isPrefixOf (c :: cs) then new ++ stringsReplaceAllAux old new cs (old.length - 1)
    else c :: stringsReplaceAllAux old new cs 0

/-- Library function `strings.ReplaceAll`. -/
def stringsReplaceAll (s old new : String) : String :=
  ⟨stringsReplaceAllAux old.data new.data s.data 0⟩

/-- Function `replaceUserStoreDomainDelimiter` of `impl/exportApp.go`. -/
def replaceUserStoreDomainDelimiter (username : String) : String :=
  stringsReplaceAll username "/" "#"

/-- Function `ExportApp` of `impl/exportApp.go`; the Go pair `(resp, err)` is returned
as a pair. -/
def ExportApp (env : Env) (name owner format devportalApplicationsEndpoint accessToken : String)
    (exportAppWithKeys : Bool) : Exec (Option Response × Option GoError) := do
  let devportalApplicationsEndpoint := env.AppendSlashToString devportalApplicationsEndpoint
  let query := "export"
  let url := devportalApplicationsEndpoint ++ query
  call (.Logln [env.LogPrefixInfo ++ "ExportApp: URL:", url]) ()
  let headers := GoMap.empty
  let headers := headers.set env.HeaderAuthorization
    (env.HeaderValueAuthBearerPrefix ++ " " ++ accessToken)
  let headers := headers.set env.HeaderAccept env.HeaderValueApplicationZip
  let queryParams : GoMap := (GoMap.empty.set "appName" name).set "appOwner" owner
  let queryParams := if exportAppWithKeys then queryParams.set "withKeys" "true" else queryParams
  let queryParams := if format ≠ "" then queryParams.set "format" format else queryParams
  let (resp, err) ← call (.InvokeGETRequestWithMultipleQueryParams queryParams url headers)
    (env.InvokeGETRequestWithMultipleQueryParams queryParams url headers)
  match err with
  | some e => pure (none, some e)
  | none => pure (resp, none)

/-- Function `ExportAppFromEnv` of `impl/exportApp.go`. -/
def ExportAppFromEnv (env : Env) (accessToken name owner format exportEnvironment : String)
    (exportAppWithKeys : Bool) : Exec (Option Response × Option GoError) := do
  let devportalApplicationsEndpoint ←
    call (.GetDevPortalApplicationListEndpointOfEnv exportEnvironment env.MainConfigFilePath)
      (env.GetDevPortalApplicationListEndpointOfEnv exportEnvironment env.MainConfigFilePath)
  ExportApp env name owner format devportalApplicationsEndpoint accessToken exportAppWithKeys

/-- Function `WriteApplicationToZip` of `impl/exportApp.go`. -/
def WriteApplicationToZip (env : Env) (exportAppName exportAppOwner zipLocationPath : String)
    (resp : Option Response) : Exec Unit := do
  let zipFilename := replaceUserStoreDomainDelimiter exportAppOwner ++ "_" ++ exportAppName ++ ".zip"
  let (tempZipFile, err) ←
    call (.WriteResponseToTempZip zipFilename resp) (env.WriteResponseToTempZip zipFilename resp)
  match err with
  | some e =>
    HandleErrorAndExit "Error creating the temporary zip file to store the exported application" e
  | none => pure ()
  let err ← call (.CreateDirIfNotExist zipLocationPath) (env.CreateDirIfNotExist zipLocationPath)
  match err with
  | some e => HandleErrorAndExit ("Error creating dir to store zip archive: " ++ zipLocationPath) e
  | none => pure ()
  let exportedFinalZip := env.filepathJoin [zipLocationPath, zipFilename]
  let metaData : MetaData :=
    { Name := exportAppName
      Owner := exportAppOwner
      DeployConfig :=
        { Import :=
            { Update := true
              PreserveOwner := true
              SkipSubscriptions := false
              SkipKeys := true } } }
  let err ←
    call (.IncludeMetaFileToZip tempZipFile exportedFinalZip env.MetaFileApplication metaData)
      (env.IncludeMetaFileToZip tempZipFile exportedFinalZip env.MetaFileApplication metaData)
  match err with
  | some e =>
    HandleErrorAndExit "Error creating the final zip archive with application_meta.yaml file" e
  | none => pure ()
  fmtPrintln ["Successfully exported Application!"]
  fmtPrintln ["Find the exported Application at " ++ exportedFinalZip]

/-! ## A concrete environment -/

/-- An environment with the usual values of the constants, in which every call succeeds
and every GET request is answered with `200 OK`. -/
def sampleEnv : Env where
  HeaderAuthorization := "Authorization"
  HeaderAccept := "Accept"
  HeaderValueAuthBasicPrefix := "Basic"
  HeaderValueAuthBearerPrefix := "Bearer"
  HeaderValueApplicationZip := "application/zip"
  ApiImportExportProduct := "api-import-export-2.1.0-v2"
  ExportDirectory := "exported"
  MetaFileApplication := "application_meta.yaml"
  LogPrefixInfo := "[INFO]: "
  MainConfigFilePath := "main_config.yaml"
  AppendSlashToString := fun s => if s.data.getLast? = some '/' then s else s ++ "/"
  filepathJoin := fun l => "/".intercalate l
  GetDevPortalApplicationListEndpointOfEnv := fun _ _ => "https://localhost:9443/devportal"
  ExecutePreCommandWithBasicAuth := fun _ _ _ => ("YWRtaW46YWRtaW4=", "https://localhost:9443", none)
  InvokeGETRequest := fun _ _ => (some ⟨200, "200 OK", [80, 75], ""⟩, none)
  InvokeGETRequestWithMultipleQueryParams := fun _ _ _ => (some ⟨200, "200 OK", [80, 75], ""⟩, none)
  GetAPIList := fun _ _ _ => (1, none)
  osStatIsNotExist := fun _ => true
  osMkdir := fun _ _ => none
  ioutilWriteFile := fun _ _ _ => none
  WriteResponseToTempZip := fun n _ => ("/tmp/" ++ n, none)
  CreateDirIfNotExist := fun _ => none
  IncludeMetaFileToZip := fun _ _ _ _ => none

/-! ## Values built by the code, and sample inputs -/

/-- The URL that `ExportAPI` builds once the last character `last` of the endpoint is
known. -/
def exportAPIUrl (env : Env) (name version provider apimEndpoint : String) (last : Char) : String :=
  (if String.singleton last ≠ "/" then apimEndpoint ++ "/" else apimEndpoint) ++
    (if provider ≠ "" then
      env.ApiImportExportProduct ++ "/export-api?name=" ++ name ++ "&version=" ++ version ++
        "&provider=" ++ provider
    else env.ApiImportExportProduct ++ "/export-api?name=" ++ name ++ "&version=" ++ version)

/-- The header map that `ExportAPI` builds. -/
def exportAPIHeaders (env : Env) (b64encodedCredentials : String) : GoMap :=
  (GoMap.empty.set env.HeaderAuthorization
    (env.HeaderValueAuthBasicPrefix ++ " " ++ b64encodedCredentials)).set
    env.HeaderAccept env.HeaderValueApplicationZip

/-- The query-parameter map that `ExportApp` builds. -/
def exportAppQueryParams (name owner format : String) (exportAppWithKeys : Bool) : GoMap :=
  let queryParams : GoMap := (GoMap.empty.set "appName" name).set "appOwner" owner
  let queryParams := if exportAppWithKeys then queryParams.set "withKeys" "true" else queryParams
  if format ≠ "" then queryParams.set "format" format else queryParams

/-- The header map that `ExportApp` builds. -/
def exportAppHeaders (env : Env) (accessToken : String) : GoMap :=
  (GoMap.empty.set env.HeaderAuthorization
    (env.HeaderValueAuthBearerPrefix ++ " " ++ accessToken)).set
    env.HeaderAccept env.HeaderValueApplicationZip

/-- The URL that `ExportApp` builds. -/
def exportAppUrl (env : Env) (devportalApplicationsEndpoint : String) : String :=
  env.AppendSlashToString devportalApplicationsEndpoint ++ "export"

/-- The endpoint with a trailing slash, in the words of the specification: the endpoint
itself if it already ends with "/", and the endpoint followed by "/" otherwise. -/
def endpointWithSlashSpec (apimEndpoint : String) : String :=
  if "/".data <:+ apimEndpoint.data then apimEndpoint else apimEndpoint ++ "/"

/-- The zip file name that `WriteApplicationToZip` builds. -/
def appZipFilename (exportAppName exportAppOwner : String) : String :=
  replaceUserStoreDomainDelimiter exportAppOwner ++ "_" ++ exportAppName ++ ".zip"

/-- The meta data that `WriteApplicationToZip` builds. -/
def appMetaData (exportAppName exportAppOwner : String) : MetaData :=
  { Name := exportAppName
    Owner := exportAppOwner
    DeployConfig :=
      { Import :=
          { Update := true
            PreserveOwner := true
            SkipSubscriptions := false
            SkipKeys := true } } }

/-- The directory `WriteToZip` writes to. -/
def exportDirectoryOf (env : Env) (exportEnvironment : String) : String :=
  env.filepathJoin [env.ExportDirectory, exportEnvironment]

/-- The file `WriteToZip` writes. -/
def exportFileOf (env : Env) (exportAPIName exportAPIVersion exportEnvironment : String) : String :=
  env.filepathJoin [exportDirectoryOf env exportEnvironment,
    exportAPIName ++ "_" ++ exportAPIVersion ++ ".zip"]

/-- The calls of the `export-api` command after a response with status 200 has been
logged: `WriteToZip`, then, if it returned, `GetAPIList` and its report. -/
def exportedTrace (env : Env) (f : ExportAPIFlags) (creds endpoint : String) (r : Response) :
    List Event :=
  (WriteToZip env f.exportAPIName f.exportAPIVersion f.exportEnvironment (some r)).trace ++
    match (WriteToZip env f.exportAPIName f.exportAPIVersion f.exportEnvironment (some r)).out with
    | .ret _ =>
      .GetAPIList f.exportAPIName creds endpoint ::
        (match (env.GetAPIList f.exportAPIName creds endpoint).2 with
          | none => [.Stdout ("Number of APIs exported:" ++ " " ++
              toString (env.GetAPIList f.exportAPIName creds endpoint).1 ++ "\n")]
          | some e => [.HandleErrorAndExit "Error getting list of APIs" e])
    | _ => []

/-- Whether an event is a call into the file system. -/
def isFileSystemCall : Event → Bool
  | .osStat _ => true
  | .osMkdir _ _ => true
  | .ioutilWriteFile _ _ _ => true
  | _ => false

/-- An environment like `sampleEnv` in which every GET request is answered with `r`. -/
def respondingEnv (r : Response) : Env :=
  { sampleEnv with InvokeGETRequest := fun _ _ => (some r, none) }

/-- An environment like `sampleEnv` in which `ioutil.WriteFile` fails. -/
def writeFailingEnv : Env :=
  { sampleEnv with ioutilWriteFile := fun _ _ _ => some "permission denied" }

/-- Flags of a sample run of the `export-api` command. -/
def sampleFlags : ExportAPIFlags :=
  { exportAPIName := "MyAPI"
    exportAPIVersion := "1.0.0"
    exportEnvironment := "dev"
    exportProvider := ""
    exportAPICmdUsername := "admin"
    exportAPICmdPassword := "admin" }

/-- The pre-command step of the `export-api` command succeeded and `ExportAPI` returned
the response `r`, whose status code is 200. -/
def ExportedWith (env : Env) (f : ExportAPIFlags) (r : Response) : Prop :=
  (env.ExecutePreCommandWithBasicAuth f.exportEnvironment f.exportAPICmdUsername
      f.exportAPICmdPassword).2.2 = none ∧
    (ExportAPI env f.exportAPIName f.exportAPIVersion f.exportProvider
      (env.ExecutePreCommandWithBasicAuth f.exportEnvironment f.exportAPICmdUsername
        f.exportAPICmdPassword).2.1
      (env.ExecutePreCommandWithBasicAuth f.exportEnvironment f.exportAPICmdUsername
        f.exportAPICmdPassword).1).out = .ret (some r) ∧
    r.StatusCode = 200

instance (env : Env) (f : ExportAPIFlags) (r : Response) : Decidable (ExportedWith env f r) := by
  unfold ExportedWith
  infer_instance

/-- An environment like `sampleEnv` in which `os.Mkdir` fails (the directory has been
created by someone else after the `os.Stat` call) and everything else succeeds. -/
def mkdirFailingEnv : Env :=
  { sampleEnv with osMkdir := fun _ _ => some "mkdir exported/dev: file exists" }

/-- An environment like `sampleEnv` in which the pre-command step fails. -/
def preFailingEnv : Env :=
  { sampleEnv with
    ExecutePreCommandWithBasicAuth := fun _ _ _ => ("", "", some "environment not found") }

/-! ## integration/testutils/app_testUtils.go

The types of package `apim` are not in the source files. Each is embedded with the fields
the code names and one more field, `rest`, that stands for all its other fields; the
type of `rest` is a parameter, and `reflect.DeepEqual` on it is its equality. A Go slice
is the option of a list, `none` being the nil slice, which `reflect.DeepEqual` tells from
an empty slice. What a test has recorded on its `*testing.T` is the list of the messages
of the failed assertions. -/

/-- A Go slice: `none` is the nil slice. -/
abbrev GoSlice (α : Type) := Option (List α)

/-- The elements a `range` loop over the slice visits. -/
def GoSlice.elems {α : Type} (s : GoSlice α) : List α := s.getD []

/-- The builtin `append(s, x)`: never nil. -/
def GoSlice.append {α : Type} (s : GoSlice α) (x : α) : GoSlice α := some (s.elems ++ [x])

/-- Type `apim.Subscription`. -/
structure Subscription (ρ : Type) where
  SubscriptionID : String
  APIID : String
  ApplicationID : String
  rest : ρ
deriving DecidableEq, Repr

/-- Type `apim.SubscriptionList`. -/
structure SubscriptionList (ρ σ : Type) where
  Count : Int
  List : GoSlice (Subscription ρ)
  rest : σ
deriving DecidableEq, Repr

/-- Type `apim.Application`; `κ` is the type `apim.ApplicationKey`. -/
structure Application (κ ρ : Type) where
  ApplicationID : String
  SubscriptionCount : Int
  SubscriptionScopes : GoSlice String
  Keys : GoSlice κ
  rest : ρ
deriving DecidableEq, Repr

/-- The fields of `AppImportExportTestArgs` that the validations read. -/
structure AppImportExportTestArgs (κ ρ : Type) where
  Application : Application κ ρ
  WithKeys : Bool
  SkipKeys : Bool
  SkipSubscriptions : Bool
deriving DecidableEq, Repr

/-- The state of a `*testing.T`: the messages of the assertions that failed so far. -/
abbrev T := List String

/-- Call `assert.Equal(t, expected, actual, msg)`: the objects are compared with
`reflect.DeepEqual`, and a failure is recorded on `t`. -/
def assertEqual {α : Type} [DecidableEq α] (t : T) (expected actual : α) (msg : String) : T :=
  if expected = actual then t else t ++ [msg]

/-- Function `OverrideDifferedPropertiesOfSubscriptions`; a nil argument panics at
`subscriptionsList1.Count`, which is the result `none`. -/
def OverrideDifferedPropertiesOfSubscriptions {ρ σ : Type} [Inhabited σ]
    (subscriptionsList1 : Option (SubscriptionList ρ σ)) : Option (SubscriptionList ρ σ) :=
  match subscriptionsList1 with
  | none => none
  | some subscriptionsList1 =>
    let same := "override_with_same_value"
    let subscriptionsList1Copy : SubscriptionList ρ σ :=
      { Count := subscriptionsList1.Count, List := some [], rest := default }
    some (subscriptionsList1.List.elems.foldl
      (fun subscriptionsList1Copy subscription =>
        let subscription := { subscription with SubscriptionID := same }
        let subscription := { subscription with APIID := same }
        let subscription := { subscription with ApplicationID := same }
        { subscriptionsList1Copy with List := subscriptionsList1Copy.List.append subscription })
      subscriptionsList1Copy)

/-- Function `validateSubscriptionsOfApp`; `none` is a panic. -/
def validateSubscriptionsOfApp {ρ σ : Type} [Inhabited σ] [DecidableEq ρ] [DecidableEq σ]
    (t : T) (subscriptionsOfApp1 subscriptionsOfApp2 : Option (SubscriptionList ρ σ)) :
    Option T := do
  let subscriptionsOfApp1 ← OverrideDifferedPropertiesOfSubscriptions subscriptionsOfApp1
  let subscriptionsOfApp2 ← OverrideDifferedPropertiesOfSubscriptions subscriptionsOfApp2
  pure (assertEqual t subscriptionsOfApp1 subscriptionsOfApp2
    "Subscriptions objects are not equal")

/-- Function `ValidateAppsEqual`; `CopyApp` is `apim.CopyApp`, which is not in the source
files. -/
def ValidateAppsEqual {κ ρ : Type} [DecidableEq κ] [DecidableEq ρ]
    (CopyApp : Application κ ρ → Application κ ρ) (t : T) (args : AppImportExportTestArgs κ ρ)
    (app2 : Application κ ρ) : T :=
  let app1Copy := CopyApp args.Application
  let app2Copy := CopyApp app2
  let same := "override_with_same_value"
  let app1Copy := { app1Copy with ApplicationID := same }
  let app2Copy := { app2Copy with ApplicationID := same }
  let sameInt : Int := 0
  let app1Copy :=
    if args.SkipSubscriptions then
      { app1Copy with SubscriptionCount := sameInt, SubscriptionScopes := some [same] }
    else app1Copy
  let app2Copy :=
    if args.SkipSubscriptions then
      { app2Copy with SubscriptionCount := sameInt, SubscriptionScopes := some [same] }
    else app2Copy
  let sameKeys : GoSlice κ := some []
  let app1Copy := if args.WithKeys then { app1Copy with Keys := sameKeys } else app1Copy
  let app2Copy := if args.WithKeys then { app2Copy with Keys := sameKeys } else app2Copy
  assertEqual t app1Copy app2Copy "Application objects are not equal"

/-- The subscription that the loop of `OverrideDifferedPropertiesOfSubscriptions` appends
for the subscription `s`. -/
def overrideSubscription {ρ : Type} (s : Subscription ρ) : Subscription ρ :=
  { SubscriptionID := "override_with_same_value"
    APIID := "override_with_same_value"
    ApplicationID := "override_with_same_value"
    rest := s.rest }

/-! ## Library functions `filepath.Clean` and `filepath.Join`

The functions of Go's `path/filepath` for a system whose separator is `/`, on the
characters of the path: `Clean` reads the path elements from the left and keeps the
elements of its result on a stack. -/

namespace Filepath

/-- The path elements of a path: the parts between the separators. -/
def splitPath : List Char → List (List Char)
  | [] => [[]]
  | c :: cs =>
    if c = '/' then [] :: splitPath cs
    else
      match splitPath cs with
      | [] => [[c]]
      | e :: es => (c :: e) :: es

/-- The elements joined with one separator between two of them. -/
def joinSlash : List (List Char) → List Char
  | [] => []
  | [e] => e
  | e :: es => e ++ '/' :: joinSlash es

/-- One round of the loop of `Clean`, on the path element `e`; the stack has the last
element kept on top. An empty element and `.` are dropped; `..` removes the element on
top, unless there is none or it is `..` itself, and then `..` is kept if the path is not
rooted; any other element is kept. -/
def cleanStep (rooted : Bool) (stack : List (List Char)) (e : List Char) : List (List Char) :=
  if e = [] ∨ e = ['.'] then stack
  else if e = ['.', '.'] then
    match stack with
    | [] => if rooted then [] else [e]
    | top :: below =>
      if top = ['.', '.'] then (if rooted then stack else e :: stack) else below
  else e :: stack

/-- The result of `Clean` from the stack: the elements from the bottom, after the root
if the path is rooted; `.` if there is nothing. -/
def cleanRender (rooted : Bool) (stack : List (List Char)) : List Char :=
  if rooted then '/' :: joinSlash stack.reverse
  else if stack = [] then ['.']
  else joinSlash stack.reverse

/-- Library function `filepath.Clean`. -/
def Clean (path : String) : String :=
  if path = "" then "."
  else
    ⟨cleanRender (path.data.head? = some '/')
      (List.foldl (cleanStep (path.data.head? = some '/')) [] (splitPath path.data))⟩

/-- Library function `filepath.Join`: the elements from the first non-empty one on are
joined with separators, and the result is cleaned; without a non-empty element the
result is empty. -/
def Join : List String → String
  | [] => ""
  | e :: es => if e = "" then Join es else Clean ("/".intercalate (e :: es))

end Filepath

/-- An environment like `sampleEnv` with `filepath.Join` as it is on a system whose
separator is `/`. -/
def unixEnv : Env :=
  { sampleEnv with filepathJoin := Filepath.Join }

/-- The stacks `filepath.Clean` works with: every element is a path element other than
the empty one and `.`, a rooted path keeps no `..`, and cleaning the elements again,
from the bottom, gives the stack back. -/
def Filepath.GoodStack (rooted : Bool) (stack : List (List Char)) : Prop :=
  (∀ e ∈ stack, '/' ∉ e ∧ e ≠ [] ∧ e ≠ ['.']) ∧
    (rooted = true → ['.', '.'] ∉ stack) ∧
    List.foldl (Filepath.cleanStep rooted) [] stack.reverse = stack

/-- Function `filepath.Clean` on the characters of a non-empty path. -/
def Filepath.cleanChars (path : List Char) : List Char :=
  Filepath.cleanRender (path.head? = some '/')
    (List.foldl (Filepath.cleanStep (path.head? = some '/')) [] (Filepath.splitPath path))

/-- The path of the entry `name` of the directory `dir`, a cleaned path: the name itself
in the directory `.`, and otherwise the directory, a separator unless the directory is
the root, and the name. -/
def Filepath.childOf (dir name : String) : String :=
  if dir = "." then name else if dir = "/" then "/" ++ name else dir ++ "/" ++ name

/-! ## More of integration/testutils/app_testUtils.go, and integration/app_test.go

The validations below take, as arguments, what the calls to the two environments return
to them: whether the exported archive exists, the application `GetApp` returns, the
subscription lists, the generated keys, the key list, the application lists. The calls
whose result the code does not read (set-up of the environments, login, the runs of the
command line tool, waiting for the index) act on the environments only and leave the
`*testing.T` as it is. A failed assertion is recorded by its message, and by the name
of the assertion when the call gives no message. -/

/-- The values the code passes as `interface{}` arguments of different types. -/
inductive GoValue where
  /-- A value of type `int`. -/
  | int (v : Int)
  /-- A value of type `string`. -/
  | string (v : String)
deriving DecidableEq, Repr

/-- A value of Go's type `int` of `bits` bits after an arithmetic operation: the result
wraps around. -/
def wrapInt (bits : Nat) (x : Int) : Int :=
  (x + 2 ^ (bits - 1)) % 2 ^ bits - 2 ^ (bits - 1)

/-- Call `assert.NotEqual(t, expected, actual, msgAndArgs...)`: the assertion fails when
the objects are equal for `reflect.DeepEqual`. -/
def assertNotEqual {α : Type} [DecidableEq α] (t : T) (expected actual : α)
    (msgAndArgs : List String) : T :=
  if expected = actual then t ++ [if msgAndArgs = [] then "NotEqual" else " ".intercalate msgAndArgs]
  else t

/-- Call `assert.True(t, value, msgAndArgs...)`. -/
def assertTrue (t : T) (value : Bool) (msgAndArgs : List String) : T :=
  if value then t else t ++ [if msgAndArgs = [] then "True" else " ".intercalate msgAndArgs]

/-- Type `apim.ApplicationKey`. -/
structure ApplicationKey (χ : Type) where
  KeyType : String
  ConsumerKey : String
  ConsumerSecret : String
  rest : χ
deriving DecidableEq, Repr

/-- Type `apim.ApplicationKeysList`. -/
structure ApplicationKeysList (χ τ : Type) where
  Count : Int
  List : GoSlice (ApplicationKey χ)
  rest : τ
deriving DecidableEq, Repr

/-- Type `apim.ApplicationList`. -/
structure ApplicationList (κ ρ υ : Type) where
  Count : Int
  List : GoSlice (Application κ ρ)
  rest : υ
deriving DecidableEq, Repr

/-- Function `ValidateAppImport`; `importedApp` is the application that `GetApp` returns
after the import. The function returns the state of `t` and the imported application. -/
def ValidateAppImport {κ ρ : Type} [DecidableEq κ] [DecidableEq ρ]
    (CopyApp : Application κ ρ → Application κ ρ) (importedApp : Application κ ρ)
    (t : T) (args : AppImportExportTestArgs κ ρ) : T × Application κ ρ :=
  let t := ValidateAppsEqual CopyApp t args importedApp
  (t, importedApp)

/-- Function `ValidateAppExportImport`; `archiveExists` is the result of
`base.IsApplicationArchiveExists` after the export, and `importedApp` is the application
that `GetApp` returns after the import. -/
def ValidateAppExportImport {κ ρ : Type} [DecidableEq κ] [DecidableEq ρ]
    (CopyApp : Application κ ρ → Application κ ρ) (archiveExists : Bool)
    (importedApp : Application κ ρ) (t : T) (args : AppImportExportTestArgs κ ρ) :
    T × Application κ ρ :=
  let t := assertTrue t archiveExists []
  let t := ValidateAppsEqual CopyApp t args importedApp
  (t, importedApp)

/-- Function `ValidateAppExportImportSubscriptions`; `SrcGetApplicationSubscriptions` and
`DestGetApplicationSubscriptions` are `GetApplicationSubscriptions` of the two clients. A
nil subscription list panics where it is read: the result `none`. -/
def ValidateAppExportImportSubscriptions {κ ρ ρs σ : Type} [DecidableEq κ] [DecidableEq ρ]
    [DecidableEq ρs] [DecidableEq σ] [Inhabited σ]
    (CopyApp : Application κ ρ → Application κ ρ) (archiveExists : Bool)
    (importedApp : Application κ ρ)
    (SrcGetApplicationSubscriptions DestGetApplicationSubscriptions :
      String → Option (SubscriptionList ρs σ))
    (t : T) (args : AppImportExportTestArgs κ ρ) (appId : String) (importOnly : Bool) :
    Option (T × Application κ ρ) :=
  let subscriptionsListFromEnv1App := SrcGetApplicationSubscriptions appId
  let (t, importedApplication) :=
    if !importOnly then ValidateAppExportImport CopyApp archiveExists importedApp t args
    else ValidateAppImport CopyApp importedApp t args
  let subscriptionsListFromEnv2App :=
    DestGetApplicationSubscriptions importedApplication.ApplicationID
  if !args.SkipSubscriptions then do
    let t ← validateSubscriptionsOfApp t subscriptionsListFromEnv1App subscriptionsListFromEnv2App
    pure (t, importedApplication)
  else do
    let env1 ← subscriptionsListFromEnv1App
    let t := assertNotEqual t env1.Count 0
      ["The subscriptions count of the app in env 1 is incorrect"]
    let t := assertNotEqual t (GoValue.int env1.List.elems.length)
      (GoValue.string "The subscriptions list of the app in env 1 is incorrect") []
    let env2 ← subscriptionsListFromEnv2App
    let t := assertEqual t env2.Count 0
      "The subscriptions count of the imported app is incorrect"
    let t := assertEqual t (env2.List.elems.length : Int) 0
      "The subscriptions list of the imported app is incorrect"
    pure (t, importedApplication)

/-- The body of the loop of `ValidateAppExportImportGeneratedKeys` over the imported
keys. -/
def compareGeneratedKey {χ : Type} (ProductionKeyType SandboxKeyType : String)
    (applicationKey1 applicationKey2 : ApplicationKey χ) (t : T) (key : ApplicationKey χ) : T :=
  let t :=
    if key.KeyType = ProductionKeyType then
      let t := assertEqual t applicationKey1.ConsumerKey key.ConsumerKey
        "Production Consumer key mismatched"
      assertEqual t applicationKey1.ConsumerSecret key.ConsumerSecret
        "Production Consumer secret mismatched"
    else t
  if key.KeyType = SandboxKeyType then
    let t := assertEqual t applicationKey2.ConsumerKey key.ConsumerKey
      "Sandbox Consumer key mismatched"
    assertEqual t applicationKey2.ConsumerSecret key.ConsumerSecret
      "Sandbox Consumer secret mismatched"
  else t

/-- Function `ValidateAppExportImportGeneratedKeys`; `GenerateKeys` gives the key
generated in the source environment for an application and a key type, `GetOauthKeys`
the key list of an application in the destination environment, and the two key types
are the constants `utils.ProductionKeyType` and `utils.SandboxKeyType`. A nil key list
panics in the loop: the result `none`. -/
def ValidateAppExportImportGeneratedKeys {χ ρ τ : Type} [DecidableEq χ] [DecidableEq ρ]
    [DecidableEq τ] [Inhabited τ]
    (CopyApp : Application (ApplicationKey χ) ρ → Application (ApplicationKey χ) ρ)
    (ProductionKeyType SandboxKeyType : String)
    (GenerateKeys : String → String → ApplicationKey χ)
    (archiveExists : Bool) (importedApp : Application (ApplicationKey χ) ρ)
    (GetOauthKeys : Application (ApplicationKey χ) ρ → Option (ApplicationKeysList χ τ))
    (t : T) (args : AppImportExportTestArgs (ApplicationKey χ) ρ) (appId : String) : Option T :=
  let applicationKey1 := GenerateKeys appId ProductionKeyType
  let applicationKey2 := GenerateKeys appId SandboxKeyType
  let (t, importedApplication) :=
    ValidateAppExportImport CopyApp archiveExists importedApp t args
  let importedApplicationKeysList := GetOauthKeys importedApplication
  if !args.SkipKeys then do
    let keysList ← importedApplicationKeysList
    pure (keysList.List.elems.foldl
      (compareGeneratedKey ProductionKeyType SandboxKeyType applicationKey1 applicationKey2) t)
  else
    pure (assertEqual t importedApplicationKeysList
      (some { Count := 0, List := none, rest := default }) "Application keys are not empty")

/-- Function `ValidateApplicationIsDeleted`; a nil list panics: the result `none`. -/
def ValidateApplicationIsDeleted {κ ρ υ : Type} (t : T) (application : Application κ ρ)
    (appsListAfterDelete : Option (ApplicationList κ ρ υ)) : Option T := do
  let appsListAfterDelete ← appsListAfterDelete
  pure (appsListAfterDelete.List.elems.foldl
    (fun t existingApplication =>
      assertNotEqual t existingApplication.ApplicationID application.ApplicationID
        ["API delete is not successful"]) t)

/-- Function `ValidateAppDelete`; `GetApplications n` is what the call number `n` of
`args.SrcAPIM.GetApplications()` returns, the call 0 before the delete and the call 1
after it, and `bits` is the size of the type `int`. A nil list panics: the result
`none`. -/
def ValidateAppDelete {κ ρ υ : Type} (bits : Nat)
    (GetApplications : Nat → Option (ApplicationList κ ρ υ))
    (t : T) (args : AppImportExportTestArgs κ ρ) : Option T := do
  let appsListBeforeDelete := GetApplications 0
  let appsListAfterDelete := GetApplications 1
  let before ← appsListBeforeDelete
  let after ← appsListAfterDelete
  let t := assertEqual t before.Count (wrapInt bits (after.Count + 1))
    "Expected number of Applications not deleted"
  ValidateApplicationIsDeleted t args.Application appsListAfterDelete

/-- Constant `numberOfApps` of `integration/app_test.go`. -/
def numberOfApps : Nat := 5

/-- The calls of a test function into package `testutils`. -/
inductive TestCall where
  /-- Call `testutils.AddApp(t, client, username, password)`. -/
  | AddApp (username password : String)
  /-- Call `testutils.AddApplicationWithoutCleaning(t, client, username, password)`. -/
  | AddApplicationWithoutCleaning (username password : String)
  /-- Call `testutils.ValidateAppDelete(t, args)`. -/
  | ValidateAppDelete
deriving DecidableEq, Repr

/-- The loop `for appCount := 0; appCount <= numberOfApps; appCount++` of
`TestDeleteAppSuperTenantUser`, from the value `appCount` of the counter on; `AddApp n`
is the application the call in round `n` returns. -/
def addAppsLoop {κ ρ : Type} (AddApp : Nat → Application κ ρ) (adminUsername adminPassword : String)
    (appCount : Nat) (application : Option (Application κ ρ)) (calls : List TestCall) :
    Option (Application κ ρ) × List TestCall :=
  if appCount ≤ numberOfApps then
    addAppsLoop AddApp adminUsername adminPassword (appCount + 1) (some (AddApp appCount))
      (calls ++ [.AddApp adminUsername adminPassword])
  else (application, calls)
termination_by numberOfApps + 1 - appCount

/-- Function `TestDeleteAppSuperTenantUser`: the calls into `testutils`, in order, and the
state of `t` after `ValidateAppDelete`. The constants `superAdminUser` and
`superAdminPassword` are not in the source files. -/
def TestDeleteAppSuperTenantUser {κ ρ υ : Type} (superAdminUser superAdminPassword : String)
    (AddApp : Nat → Application κ ρ) (AddApplicationWithoutCleaning : Application κ ρ)
    (bits : Nat) (GetApplications : Nat → Option (ApplicationList κ ρ υ)) (t : T) :
    List TestCall × Option T :=
  let adminUsername := superAdminUser
  let adminPassword := superAdminPassword
  let (_, calls) := addAppsLoop AddApp adminUsername adminPassword 0 none []
  let application := AddApplicationWithoutCleaning
  let calls := calls ++ [.AddApplicationWithoutCleaning adminUsername adminPassword]
  let args : AppImportExportTestArgs κ ρ :=
    { Application := application, WithKeys := false, SkipKeys := false,
      SkipSubscriptions := false }
  (calls ++ [.ValidateAppDelete], ValidateAppDelete bits GetApplications t args)

/-- An application of the source environment, for sample runs of the validations. -/
def sampleSourceApp : Application String String :=
  { ApplicationID := "8f1c", SubscriptionCount := 1, SubscriptionScopes := some ["default"],
    Keys := none, rest := "SampleApp" }

/-- The same application as the destination environment has it after an import that
skips the subscriptions. -/
def sampleImportedApp : Application String String :=
  { ApplicationID := "77aa", SubscriptionCount := 0, SubscriptionScopes := none,
    Keys := none, rest := "SampleApp" }

/-- An environment like `sampleEnv` in which the GET helper with query parameters returns
neither a response nor an error. -/
def neitherEnv : Env :=
  { sampleEnv with InvokeGETRequestWithMultipleQueryParams := fun _ _ _ => (none, none) }

/-! ## Lemmas on maps -/

namespace GoMap

theorem lookup_filter_ne (l : List (String × String)) (k k2 : String) (h : k2 ≠ k) :
    (l.filter (fun p => p.1 != k)).lookup k2 = l.lookup k2 := by
  induction l with
  | nil => rfl
  | cons p l ih =>
    obtain ⟨a, b⟩ := p
    by_cases hak : a = k
    · subst hak
      have h1 : (k2 == a) = false := by simpa using h
      simp [List.filter, List.lookup, h1, ih]
    · have h1 : (a != k) = true := by simpa using hak
      by_cases h2 : k2 = a
      · subst h2
        simp [List.filter, List.lookup, h1]
      · have h3 : (k2 == a) = false := by simpa using h2
        simp [List.filter, List.lookup, h1, h3, ih]

@[simp]
theorem get?_empty (k : String) : empty.get? k = none := rfl

@[simp]
theorem get?_set_self (m : GoMap) (k v : String) : (m.set k v).get? k = some v := by
  simp [get?, set, List.lookup]

theorem get?_set_ne (m : GoMap) (k v k2 : String) (h : k2 ≠ k) :
    (m.set k v).get? k2 = m.get? k2 := by
  have h1 : (k2 == k) = false := by simpa using h
  simp [get?, set, List.lookup, h1, lookup_filter_ne _ _ _ h]

end GoMap

/-! ## Lemmas on runs -/

@[simp]
theorem Exec.bind_def {α β : Type} (m : Exec α) (f : α → Exec β) :
    (m >>= f) = Exec.bind m f := rfl

@[simp]
theorem Exec.pure_def {α : Type} (a : α) : (pure a : Exec α) = ⟨[], .ret a⟩ := rfl

theorem ExportAPI_of_empty (env : Env) (name version provider apimEndpoint b64 : String)
    (h : apimEndpoint.data.getLast? = none) :
    ExportAPI env name version provider apimEndpoint b64 = ⟨[], .panicked⟩ := by
  simp [ExportAPI, lastIndex, Exec.bind, Exec.panic, h]

theorem ExportAPI_of_last (env : Env) (name version provider apimEndpoint b64 : String) (c : Char)
    (h : apimEndpoint.data.getLast? = some c) :
    ExportAPI env name version provider apimEndpoint b64 =
      ⟨.Logln [env.LogPrefixInfo ++ "ExportAPI: URL:",
            exportAPIUrl env name version provider apimEndpoint c] ::
          .InvokeGETRequest (exportAPIUrl env name version provider apimEndpoint c)
            (exportAPIHeaders env b64) ::
          (match (env.InvokeGETRequest (exportAPIUrl env name version provider apimEndpoint c)
              (exportAPIHeaders env b64)).2 with
            | some e => [.HandleErrorAndExit ("Error exporting API: " ++ name) e]
            | none => []),
        match (env.InvokeGETRequest (exportAPIUrl env name version provider apimEndpoint c)
              (exportAPIHeaders env b64)).2 with
            | some _ => .exited
            | none => .ret (env.InvokeGETRequest
                (exportAPIUrl env name version provider apimEndpoint c)
                (exportAPIHeaders env b64)).1⟩ := by
  simp only [ExportAPI, lastIndex, h, exportAPIUrl, exportAPIHeaders, Exec.bind_def,
    Exec.pure_def, Exec.bind, Exec.call, List.nil_append, List.singleton_append]
  generalize env.InvokeGETRequest _ _ = r
  obtain ⟨resp, err⟩ := r
  cases err <;> rfl

theorem ExportApp_eq (env : Env) (name owner format endpoint accessToken : String)
    (withKeys : Bool) :
    ExportApp env name owner format endpoint accessToken withKeys =
      ⟨[.Logln [env.LogPrefixInfo ++ "ExportApp: URL:", exportAppUrl env endpoint],
          .InvokeGETRequestWithMultipleQueryParams
            (exportAppQueryParams name owner format withKeys) (exportAppUrl env endpoint)
            (exportAppHeaders env accessToken)],
        .ret (match (env.InvokeGETRequestWithMultipleQueryParams
              (exportAppQueryParams name owner format withKeys) (exportAppUrl env endpoint)
              (exportAppHeaders env accessToken)).2 with
          | some e => (none, some e)
          | none => ((env.InvokeGETRequestWithMultipleQueryParams
              (exportAppQueryParams name owner format withKeys) (exportAppUrl env endpoint)
              (exportAppHeaders env accessToken)).1, none))⟩ := by
  simp only [ExportApp, exportAppQueryParams, exportAppHeaders, exportAppUrl, Exec.bind_def,
    Exec.pure_def, Exec.bind, Exec.call, List.nil_append, List.singleton_append]
  generalize env.InvokeGETRequestWithMultipleQueryParams _ _ _ = r
  obtain ⟨resp, err⟩ := r
  cases err <;> rfl

theorem GoMap.mem_keys_iff (m : GoMap) (k : String) : k ∈ m.keys ↔ (m.get? k).isSome = true := by
  obtain ⟨l⟩ := m
  simp only [GoMap.keys, GoMap.get?]
  induction l with
  | nil => simp [List.lookup]
  | cons p l ih =>
    obtain ⟨a, b⟩ := p
    by_cases h : k = a
    · subst h
      simp [List.lookup]
    · have h1 : (k == a) = false := by simpa using h
      simp [List.lookup, h1, h, ih]

/-- C3: the query-parameter map of the one request `ExportApp` sends maps `appName` to the
given name and `appOwner` to the given owner, unchanged; it has the key `withKeys`, with
value "true", exactly when `exportAppWithKeys` is set; it has the key `format`, with the given
value, exactly when `format` is not empty; and it has no other key. -/
theorem ExportApp_queryParams (env : Env) (name owner format endpoint accessToken : String)
    (exportAppWithKeys : Bool) :
    ∃ q : GoMap,
      (getRequestsOf (ExportApp env name owner format endpoint accessToken
        exportAppWithKeys).trace).map (fun r => r.queryParams) = [some q] ∧
      q.get? "appName" = some name ∧
      q.get? "appOwner" = some owner ∧
      ("withKeys" ∈ q.keys ↔ exportAppWithKeys = true) ∧
      q.get? "withKeys" = (if exportAppWithKeys = true then some "true" else none) ∧
      ("format" ∈ q.keys ↔ format ≠ "") ∧
      q.get? "format" = (if format = "" then none else some format) ∧
      (∀ k ∈ q.keys, k = "appName" ∨ k = "appOwner" ∨ k = "withKeys" ∨ k = "format") := by
  refine ⟨exportAppQueryParams name owner format exportAppWithKeys, ?_⟩
  have hq : ∀ k, (exportAppQueryParams name owner format exportAppWithKeys).get? k =
      if k = "format" ∧ format ≠ "" then some format
      else if k = "withKeys" ∧ exportAppWithKeys = true then some "true"
      else if k = "appOwner" then some owner
      else if k = "appName" then some name
      else none := by
    intro k
    unfold exportAppQueryParams
    by_cases hf : format = "" <;> by_cases hw : exportAppWithKeys = true <;>
      by_cases h1 : k = "format" <;> by_cases h2 : k = "withKeys" <;>
      by_cases h3 : k = "appOwner" <;> by_cases h4 : k = "appName" <;>
      simp_all [GoMap.get?_set_ne]
  refine ⟨?_, ?_, ?_, ?_, ?_, ?_, ?_, ?_⟩
  · rw [ExportApp_eq]; rfl
  · rw [hq]; simp
  · rw [hq]; simp
  · rw [GoMap.mem_keys_iff, hq]; cases exportAppWithKeys <;> simp
  · rw [hq]; simp
  · rw [GoMap.mem_keys_iff, hq]; by_cases hf : format = "" <;> simp [hf]
  · rw [hq]; by_cases hf : format = "" <;> simp [hf]
  · intro k hk
    rw [GoMap.mem_keys_iff, hq] at hk
    by_contra hcon
    simp only [not_or] at hcon
    obtain ⟨h4, h3, h2, h1⟩ := hcon
    simp [h1, h2, h3, h4] at hk

theorem String.getLast?_ne_none_of_ne_empty (s : String) (h : s ≠ "") :
    ∃ c, s.data.getLast? = some c := by
  cases hl : s.data.getLast? with
  | some c => exact ⟨c, rfl⟩
  | none =>
    exfalso
    apply h
    apply String.ext
    simpa using hl

theorem slash_suffix_iff (l : List Char) (c : Char) (h : l.getLast? = some c) :
    "/".data <:+ l ↔ c = '/' := by
  obtain ⟨ys, rfl⟩ := List.getLast?_eq_some_iff.mp h
  show ['/'] <:+ ys ++ [c] ↔ c = '/'
  constructor
  · rintro ⟨t, ht⟩
    have := congrArg List.getLast? ht
    simp at this
    exact this.symm
  · rintro rfl
    exact List.suffix_append _ _

theorem singleton_eq_slash_iff (c : Char) : String.singleton c = "/" ↔ c = '/' := by
  constructor
  · intro h
    have := congrArg String.data h
    simpa using this
  · rintro rfl
    rfl

theorem exportAPIUrl_eq_spec (env : Env) (name version provider apimEndpoint : String) (c : Char)
    (h : apimEndpoint.data.getLast? = some c) :
    exportAPIUrl env name version provider apimEndpoint c =
      endpointWithSlashSpec apimEndpoint ++ env.ApiImportExportProduct ++ "/export-api?name=" ++
        name ++ "&version=" ++ version ++
        (if provider = "" then "" else "&provider=" ++ provider) := by
  have hs := slash_suffix_iff _ c h
  unfold exportAPIUrl endpointWithSlashSpec
  by_cases hc : c = '/' <;> by_cases hp : provider = "" <;>
    simp [hc, hp, hs, singleton_eq_slash_iff, String.append_assoc]

/-- C4: for a non-empty endpoint, `ExportAPI` requests exactly the URL made of the endpoint
with a trailing slash (added only when missing), `utils.ApiImportExportProduct`,
"/export-api?name=", the name, "&version=", the version, and then "&provider=" with the
provider exactly when the provider is not empty. -/
theorem ExportAPI_url (env : Env) (name version provider apimEndpoint b64 : String)
    (hne : apimEndpoint ≠ "") :
    (getRequestsOf (ExportAPI env name version provider apimEndpoint b64).trace).map
        (fun r => r.url) =
      [endpointWithSlashSpec apimEndpoint ++ env.ApiImportExportProduct ++ "/export-api?name=" ++
        name ++ "&version=" ++ version ++
        (if provider = "" then "" else "&provider=" ++ provider)] := by
  obtain ⟨c, hc⟩ := String.getLast?_ne_none_of_ne_empty apimEndpoint hne
  rw [ExportAPI_of_last env name version provider apimEndpoint b64 c hc,
    ← exportAPIUrl_eq_spec env name version provider apimEndpoint c hc]
  cases (env.InvokeGETRequest (exportAPIUrl env name version provider apimEndpoint c)
    (exportAPIHeaders env b64)).2 <;> rfl

theorem ExportAPI_url_witness :
    (getRequestsOf (ExportAPI sampleEnv "MyAPI" "1.0.0" "admin" "https://localhost:9443"
        "YWRtaW46YWRtaW4=").trace).map (fun r => r.url) =
      [endpointWithSlashSpec "https://localhost:9443" ++ sampleEnv.ApiImportExportProduct ++
        "/export-api?name=" ++ "MyAPI" ++ "&version=" ++ "1.0.0" ++
        (if "admin" = "" then "" else "&provider=" ++ "admin")] :=
  ExportAPI_url sampleEnv "MyAPI" "1.0.0" "admin" "https://localhost:9443" "YWRtaW46YWRtaW4="
    (by decide)

/-- A map built by two assignments to distinct keys has exactly those two entries. -/
theorem GoMap.two_entries (a va b vb : String) (h : a ≠ b) :
    ((GoMap.empty.set a va).set b vb).len = 2 ∧
      ((GoMap.empty.set a va).set b vb).get? a = some va ∧
      ((GoMap.empty.set a va).set b vb).get? b = some vb ∧
      ∀ k ∈ ((GoMap.empty.set a va).set b vb).keys, k = a ∨ k = b := by
  have h1 : (a != b) = true := by simpa using h
  refine ⟨?_, ?_, ?_, ?_⟩
  · simp [GoMap.len, GoMap.set, GoMap.empty, List.filter, h1]
  · rw [GoMap.get?_set_ne _ _ _ _ h]; simp
  · simp
  · intro k hk
    simp [GoMap.keys, GoMap.set, GoMap.empty, List.filter, h1] at hk
    tauto

/-- C5: `ExportApp` sends one request; its URL is `utils.AppendSlashToString` of the
endpoint followed by "export", and it carries exactly two headers, `Authorization` with
the bearer prefix, a space and the access token, and `Accept` with the zip media type. -/
theorem ExportApp_request (env : Env) (name owner format endpoint accessToken : String)
    (exportAppWithKeys : Bool) (hkeys : env.HeaderAuthorization ≠ env.HeaderAccept) :
    ∃ h : GoMap,
      (getRequestsOf (ExportApp env name owner format endpoint accessToken
        exportAppWithKeys).trace).map (fun r => (r.url, r.headers)) =
          [(env.AppendSlashToString endpoint ++ "export", h)] ∧
      h.len = 2 ∧
      h.get? env.HeaderAuthorization =
        some (env.HeaderValueAuthBearerPrefix ++ " " ++ accessToken) ∧
      h.get? env.HeaderAccept = some env.HeaderValueApplicationZip ∧
      ∀ k ∈ h.keys, k = env.HeaderAuthorization ∨ k = env.HeaderAccept := by
  refine ⟨exportAppHeaders env accessToken, ?_, ?_⟩
  · rw [ExportApp_eq]; rfl
  · exact GoMap.two_entries _ _ _ _ hkeys

theorem ExportApp_request_witness :
    ∃ h : GoMap,
      (getRequestsOf (ExportApp sampleEnv "testApp" "admin" "" "https://localhost:9443/apps"
        "token" true).trace).map (fun r => (r.url, r.headers)) =
          [(sampleEnv.AppendSlashToString "https://localhost:9443/apps" ++ "export", h)] ∧
      h.len = 2 ∧
      h.get? sampleEnv.HeaderAuthorization =
        some (sampleEnv.HeaderValueAuthBearerPrefix ++ " " ++ "token") ∧
      h.get? sampleEnv.HeaderAccept = some sampleEnv.HeaderValueApplicationZip ∧
      ∀ k ∈ h.keys, k = sampleEnv.HeaderAuthorization ∨ k = sampleEnv.HeaderAccept :=
  ExportApp_request sampleEnv "testApp" "admin" "" "https://localhost:9443/apps" "token" true
    (by decide)

/-- C6: every request `ExportAPI` sends carries exactly two headers, `Authorization` with
the basic prefix, a space and the encoded credentials, and `Accept` with the zip media
type; for a non-empty endpoint there is such a request. -/
theorem ExportAPI_headers (env : Env) (name version provider apimEndpoint b64 : String)
    (hkeys : env.HeaderAuthorization ≠ env.HeaderAccept) :
    (∀ r ∈ getRequestsOf (ExportAPI env name version provider apimEndpoint b64).trace,
      r.headers.len = 2 ∧
      r.headers.get? env.HeaderAuthorization =
        some (env.HeaderValueAuthBasicPrefix ++ " " ++ b64) ∧
      r.headers.get? env.HeaderAccept = some env.HeaderValueApplicationZip ∧
      ∀ k ∈ r.headers.keys, k = env.HeaderAuthorization ∨ k = env.HeaderAccept) ∧
    (apimEndpoint ≠ "" →
      ∃ r, getRequestsOf (ExportAPI env name version provider apimEndpoint b64).trace = [r]) := by
  have key : ∀ c, apimEndpoint.data.getLast? = some c →
      getRequestsOf (ExportAPI env name version provider apimEndpoint b64).trace =
        [⟨exportAPIUrl env name version provider apimEndpoint c, exportAPIHeaders env b64,
          none⟩] := by
    intro c hc
    rw [ExportAPI_of_last env name version provider apimEndpoint b64 c hc]
    cases (env.InvokeGETRequest (exportAPIUrl env name version provider apimEndpoint c)
      (exportAPIHeaders env b64)).2 <;> rfl
  constructor
  · intro r hr
    cases hl : apimEndpoint.data.getLast? with
    | none =>
      rw [ExportAPI_of_empty env name version provider apimEndpoint b64 hl] at hr
      simp [getRequestsOf] at hr
    | some c =>
      rw [key c hl] at hr
      simp only [List.mem_singleton] at hr
      subst hr
      exact GoMap.two_entries _ _ _ _ hkeys
  · intro hne
    obtain ⟨c, hc⟩ := String.getLast?_ne_none_of_ne_empty apimEndpoint hne
    exact ⟨_, key c hc⟩

theorem ExportAPI_headers_witness :
    (∀ r ∈ getRequestsOf (ExportAPI sampleEnv "MyAPI" "1.0.0" "" "https://localhost:9443/"
        "YWRtaW46YWRtaW4=").trace,
      r.headers.len = 2 ∧
      r.headers.get? sampleEnv.HeaderAuthorization =
        some (sampleEnv.HeaderValueAuthBasicPrefix ++ " " ++ "YWRtaW46YWRtaW4=") ∧
      r.headers.get? sampleEnv.HeaderAccept = some sampleEnv.HeaderValueApplicationZip ∧
      ∀ k ∈ r.headers.keys, k = sampleEnv.HeaderAuthorization ∨ k = sampleEnv.HeaderAccept) ∧
    ("https://localhost:9443/" ≠ "" →
      ∃ r, getRequestsOf (ExportAPI sampleEnv "MyAPI" "1.0.0" "" "https://localhost:9443/"
        "YWRtaW46YWRtaW4=").trace = [r]) :=
  ExportAPI_headers sampleEnv "MyAPI" "1.0.0" "" "https://localhost:9443/" "YWRtaW46YWRtaW4="
    (by decide)

/-- C7, as amended: `ExportApp` always returns. When the GET request it sent returns an
error, it returns no response and that error; when the GET request returns no error, it
returns the response of the request, unchanged, and no error. It never returns both a
response and an error, and it returns neither a response nor an error exactly when the
GET request itself returned neither. -/
theorem ExportApp_result (env : Env) (name owner format endpoint accessToken : String)
    (exportAppWithKeys : Bool) :
    ∃ q url h,
      (ExportApp env name owner format endpoint accessToken exportAppWithKeys).trace.filter
          (fun e => match e with
            | .InvokeGETRequest _ _ => true
            | .InvokeGETRequestWithMultipleQueryParams _ _ _ => true
            | _ => false) =
        [.InvokeGETRequestWithMultipleQueryParams q url h] ∧
      (∀ resp err, env.InvokeGETRequestWithMultipleQueryParams q url h = (resp, some err) →
        (ExportApp env name owner format endpoint accessToken exportAppWithKeys).out =
          .ret (none, some err)) ∧
      (∀ resp, env.InvokeGETRequestWithMultipleQueryParams q url h = (resp, none) →
        (ExportApp env name owner format endpoint accessToken exportAppWithKeys).out =
          .ret (resp, none)) ∧
      (∀ resp err,
        (ExportApp env name owner format endpoint accessToken exportAppWithKeys).out ≠
          .ret (some resp, some err)) ∧
      ((ExportApp env name owner format endpoint accessToken exportAppWithKeys).out =
          .ret (none, none) ↔
        env.InvokeGETRequestWithMultipleQueryParams q url h = (none, none)) := by
  refine ⟨exportAppQueryParams name owner format exportAppWithKeys, exportAppUrl env endpoint,
    exportAppHeaders env accessToken, ?_, ?_, ?_, ?_, ?_⟩
  · rw [ExportApp_eq]; rfl
  · intro resp err hr
    rw [ExportApp_eq, hr]
  · intro resp hr
    rw [ExportApp_eq, hr]
  · intro resp err
    rw [ExportApp_eq]
    cases (env.InvokeGETRequestWithMultipleQueryParams
      (exportAppQueryParams name owner format exportAppWithKeys) (exportAppUrl env endpoint)
      (exportAppHeaders env accessToken)).2 <;> simp
  · rw [ExportApp_eq]
    rcases env.InvokeGETRequestWithMultipleQueryParams
      (exportAppQueryParams name owner format exportAppWithKeys) (exportAppUrl env endpoint)
      (exportAppHeaders env accessToken) with ⟨resp, err⟩
    cases err <;> cases resp <;> simp

/-- C7, as stated, fails: when the GET request returns neither a response nor an error,
which counts as a success, `ExportApp` returns neither a response nor an error. -/
theorem ExportApp_returns_neither :
    neitherEnv.InvokeGETRequestWithMultipleQueryParams
        (exportAppQueryParams "testApp" "admin" "" true)
        (exportAppUrl neitherEnv "https://localhost:9443/apps")
        (exportAppHeaders neitherEnv "token") = (none, none) ∧
      ExportApp neitherEnv "testApp" "admin" "" "https://localhost:9443/apps" "token" true =
        ⟨[.Logln ["[INFO]: ExportApp: URL:", "https://localhost:9443/apps/export"],
          .InvokeGETRequestWithMultipleQueryParams
            ⟨[("withKeys", "true"), ("appOwner", "admin"), ("appName", "testApp")]⟩
            "https://localhost:9443/apps/export"
            ⟨[("Accept", "application/zip"), ("Authorization", "Bearer token")]⟩],
          .ret (none, none)⟩ := by
  refine ⟨rfl, ?_⟩
  decide

/-- Every call of `ExportApp` issues exactly one GET request. -/
theorem ExportApp_one_request (env : Env) (name owner format endpoint accessToken : String)
    (exportAppWithKeys : Bool) :
    (getRequestsOf (ExportApp env name owner format endpoint accessToken
      exportAppWithKeys).trace).length = 1 := by
  rw [ExportApp_eq]; rfl

/-- Every call of `ExportAPI` with a non-empty endpoint issues exactly one GET request,
whether the request fails or not. -/
theorem ExportAPI_one_request (env : Env) (name version provider apimEndpoint b64 : String)
    (hne : apimEndpoint ≠ "") :
    (getRequestsOf (ExportAPI env name version provider apimEndpoint b64).trace).length = 1 := by
  obtain ⟨c, hc⟩ := String.getLast?_ne_none_of_ne_empty apimEndpoint hne
  rw [ExportAPI_of_last env name version provider apimEndpoint b64 c hc]
  cases (env.InvokeGETRequest (exportAPIUrl env name version provider apimEndpoint c)
    (exportAPIHeaders env b64)).2 <;> rfl

/-- C8, at the failing input: called with the empty endpoint, `ExportAPI` panics at the
index expression `apimEndpoint[len(apimEndpoint)-1]` before anything else, so the call
issues no GET request instead of one. -/
theorem ExportAPI_empty_endpoint (env : Env) (name version provider b64 : String) :
    ExportAPI env name version provider "" b64 = ⟨[], .panicked⟩ ∧
      (getRequestsOf (ExportAPI env name version provider "" b64).trace).length = 0 := by
  have h := ExportAPI_of_empty env name version provider "" b64 rfl
  exact ⟨h, by rw [h]; rfl⟩

/-- The run of `WriteApplicationToZip`, step by step. -/
theorem WriteApplicationToZip_eq (env : Env) (name owner zipLocationPath : String)
    (resp : Option Response) :
    WriteApplicationToZip env name owner zipLocationPath resp =
      match (env.WriteResponseToTempZip (appZipFilename name owner) resp).2 with
      | some e =>
        ⟨[.WriteResponseToTempZip (appZipFilename name owner) resp,
          .HandleErrorAndExit
            "Error creating the temporary zip file to store the exported application" e],
          .exited⟩
      | none =>
        match env.CreateDirIfNotExist zipLocationPath with
        | some e =>
          ⟨[.WriteResponseToTempZip (appZipFilename name owner) resp,
            .CreateDirIfNotExist zipLocationPath,
            .HandleErrorAndExit
              ("Error creating dir to store zip archive: " ++ zipLocationPath) e],
            .exited⟩
        | none =>
          match env.IncludeMetaFileToZip
              (env.WriteResponseToTempZip (appZipFilename name owner) resp).1
              (env.filepathJoin [zipLocationPath, appZipFilename name owner])
              env.MetaFileApplication (appMetaData name owner) with
          | some e =>
            ⟨[.WriteResponseToTempZip (appZipFilename name owner) resp,
              .CreateDirIfNotExist zipLocationPath,
              .IncludeMetaFileToZip
                (env.WriteResponseToTempZip (appZipFilename name owner) resp).1
                (env.filepathJoin [zipLocationPath, appZipFilename name owner])
                env.MetaFileApplication (appMetaData name owner),
              .HandleErrorAndExit
                "Error creating the final zip archive with application_meta.yaml file" e],
              .exited⟩
          | none =>
            ⟨[.WriteResponseToTempZip (appZipFilename name owner) resp,
              .CreateDirIfNotExist zipLocationPath,
              .IncludeMetaFileToZip
                (env.WriteResponseToTempZip (appZipFilename name owner) resp).1
                (env.filepathJoin [zipLocationPath, appZipFilename name owner])
                env.MetaFileApplication (appMetaData name owner),
              .Stdout "Successfully exported Application!\n",
              .Stdout ("Find the exported Application at " ++
                env.filepathJoin [zipLocationPath, appZipFilename name owner] ++ "\n")],
              .ret ()⟩ := by
  simp only [WriteApplicationToZip, appZipFilename, appMetaData, Exec.bind_def,
    Exec.pure_def, Exec.bind, Exec.call, fmtPrintln, HandleErrorAndExit]
  generalize env.WriteResponseToTempZip _ _ = r1
  obtain ⟨tmp, e1⟩ := r1
  cases e1 with
  | some e => rfl
  | none =>
    generalize env.CreateDirIfNotExist _ = e2
    cases e2 with
    | some e => rfl
    | none =>
      simp only []
      generalize env.IncludeMetaFileToZip _ _ _ _ = e3
      cases e3 with
      | some e => rfl
      | none => 
        simp [String.intercalate, String.intercalate.go]

/-- C9: `WriteApplicationToZip` names the archive `replaceUserStoreDomainDelimiter(owner)`,
"_", the application name and ".zip" (`admin_testApp.zip` for owner `admin` and name
`testApp`); its first step writes the temporary zip under that name, no other name is
used for a temporary zip, every final archive it creates is at `filepath.Join` of
`zipLocationPath` and that name, and the final archive is created there once the
temporary zip and the directory have been made. -/
theorem WriteApplicationToZip_names (env : Env) (name owner zipLocationPath : String)
    (resp : Option Response) :
    (WriteApplicationToZip env name owner zipLocationPath resp).trace.head? =
        some (.WriteResponseToTempZip
          (replaceUserStoreDomainDelimiter owner ++ "_" ++ name ++ ".zip") resp) ∧
      (∀ z r, Event.WriteResponseToTempZip z r ∈
          (WriteApplicationToZip env name owner zipLocationPath resp).trace →
        z = replaceUserStoreDomainDelimiter owner ++ "_" ++ name ++ ".zip") ∧
      (∀ tmp fin mf md, Event.IncludeMetaFileToZip tmp fin mf md ∈
          (WriteApplicationToZip env name owner zipLocationPath resp).trace →
        fin = env.filepathJoin
          [zipLocationPath, replaceUserStoreDomainDelimiter owner ++ "_" ++ name ++ ".zip"]) ∧
      ((env.WriteResponseToTempZip
            (replaceUserStoreDomainDelimiter owner ++ "_" ++ name ++ ".zip") resp).2 = none →
        env.CreateDirIfNotExist zipLocationPath = none →
        ∃ mf md, Event.IncludeMetaFileToZip
            (env.WriteResponseToTempZip
              (replaceUserStoreDomainDelimiter owner ++ "_" ++ name ++ ".zip") resp).1
            (env.filepathJoin
              [zipLocationPath, replaceUserStoreDomainDelimiter owner ++ "_" ++ name ++ ".zip"])
            mf md ∈ (WriteApplicationToZip env name owner zipLocationPath resp).trace) ∧
      replaceUserStoreDomainDelimiter "admin" ++ "_" ++ "testApp" ++ ".zip" =
        "admin_testApp.zip" := by
  rw [WriteApplicationToZip_eq]
  refine ⟨?_, ?_, ?_, ?_, by decide⟩
  · split
    · rfl
    · split
      · rfl
      · split <;> rfl
  · intro z r
    split
    · simp [appZipFilename]; intro h _; exact h
    · split
      · simp [appZipFilename]; intro h _; exact h
      · split <;> (simp [appZipFilename]; intro h _; exact h)
  · intro tmp fin mf md
    split
    · simp
    · split
      · simp
      · split <;> (simp [appZipFilename]; intro _ h _ _; exact h)
  · intro h1 h2
    simp only [appZipFilename, h1, h2]
    split <;> exact ⟨env.MetaFileApplication, appMetaData name owner, by simp [appZipFilename]⟩

theorem WriteApplicationToZip_names_witness :
    ∃ mf md, Event.IncludeMetaFileToZip "/tmp/DOM#admin_testApp.zip"
        "exported/apps/DOM#admin_testApp.zip" mf md ∈
      (WriteApplicationToZip sampleEnv "testApp" "DOM/admin" "exported/apps" none).trace :=
  (WriteApplicationToZip_names sampleEnv "testApp" "DOM/admin" "exported/apps" none).2.2.2.1
    rfl rfl

/-- C10: every meta file `WriteApplicationToZip` includes in an archive is named
`utils.MetaFileApplication` and carries the application name, the owner exactly as
given, and the import options update = true, preserve owner = true, skip subscriptions =
false, skip keys = true, whatever the input; and it includes this meta file once the
temporary zip and the directory have been made. -/
theorem WriteApplicationToZip_metaData (env : Env) (name owner zipLocationPath : String)
    (resp : Option Response) :
    (∀ tmp fin mf md, Event.IncludeMetaFileToZip tmp fin mf md ∈
          (WriteApplicationToZip env name owner zipLocationPath resp).trace →
        mf = env.MetaFileApplication ∧ md.Name = name ∧ md.Owner = owner ∧
          md.DeployConfig.Import.Update = true ∧
          md.DeployConfig.Import.PreserveOwner = true ∧
          md.DeployConfig.Import.SkipSubscriptions = false ∧
          md.DeployConfig.Import.SkipKeys = true) ∧
      ((env.WriteResponseToTempZip
            (replaceUserStoreDomainDelimiter owner ++ "_" ++ name ++ ".zip") resp).2 = none →
        env.CreateDirIfNotExist zipLocationPath = none →
        ∃ tmp fin, Event.IncludeMetaFileToZip tmp fin env.MetaFileApplication
            ⟨name, owner, ⟨⟨true, true, false, true⟩⟩⟩ ∈
          (WriteApplicationToZip env name owner zipLocationPath resp).trace) := by
  rw [WriteApplicationToZip_eq]
  refine ⟨?_, ?_⟩
  · intro tmp fin mf md
    split
    · simp
    · split
      · simp
      · split <;>
          (simp only [List.mem_cons, Event.IncludeMetaFileToZip.injEq, reduceCtorEq, false_or,
            or_false, List.mem_singleton, List.not_mem_nil]
           rintro ⟨_, _, rfl, rfl⟩
           simp [appMetaData])
  · intro h1 h2
    simp only [appZipFilename, h1, h2]
    split <;>
      exact ⟨(env.WriteResponseToTempZip
          (replaceUserStoreDomainDelimiter owner ++ "_" ++ name ++ ".zip") resp).1,
        env.filepathJoin
          [zipLocationPath, replaceUserStoreDomainDelimiter owner ++ "_" ++ name ++ ".zip"],
        by simp [appMetaData, appZipFilename]⟩

theorem Exec.bind_of_ret {α β : Type} (m : Exec α) (f : α → Exec β) (a : α)
    (h : m.out = .ret a) : Exec.bind m f = ⟨m.trace ++ (f a).trace, (f a).out⟩ := by
  simp [Exec.bind, h]

theorem stdoutOf_append (s t : List Event) : stdoutOf (s ++ t) = stdoutOf s ++ stdoutOf t := by
  induction s with
  | nil => rfl
  | cons e s ih => cases e <;> simp [stdoutOf, ih]

theorem fileWritesOf_append (s t : List Event) :
    fileWritesOf (s ++ t) = fileWritesOf s ++ fileWritesOf t := by
  induction s with
  | nil => rfl
  | cons e s ih => cases e <;> simp [fileWritesOf, ih]

theorem fmtPrintln_one (a : String) : fmtPrintln [a] = ⟨[.Stdout (a ++ "\n")], .ret ()⟩ := rfl

theorem fmtPrintln_two (a b : String) :
    fmtPrintln [a, b] = ⟨[.Stdout (a ++ " " ++ b ++ "\n")], .ret ()⟩ := rfl

theorem WriteApplicationToZip_metaData_witness :
    ∃ tmp fin, Event.IncludeMetaFileToZip tmp fin "application_meta.yaml"
        ⟨"testApp", "DOM/admin", ⟨⟨true, true, false, true⟩⟩⟩ ∈
      (WriteApplicationToZip sampleEnv "testApp" "DOM/admin" "exported/apps" none).trace :=
  (WriteApplicationToZip_metaData sampleEnv "testApp" "DOM/admin" "exported/apps" none).2
    rfl rfl

/-- The replacement of `replaceUserStoreDomainDelimiter`, character by character. -/
theorem replaceUserStoreDomainDelimiter_data (username : String) :
    (replaceUserStoreDomainDelimiter username).data =
      username.data.map (fun c => if c = '/' then '#' else c) := by
  show stringsReplaceAllAux ['/'] ['#'] username.data 0 = _
  induction username.data with
  | nil => rfl
  | cons c cs ih =>
    by_cases hc : c = '/'
    · subst hc
      simp [stringsReplaceAllAux, ih]
    · have h1 : ('/' == c) = false := by
        simpa using fun h => hc h.symm
      simp [stringsReplaceAllAux, List.isPrefixOf, h1, hc, ih]

/-- The run of `WriteToZip` on a response, step by step. -/
theorem WriteToZip_eq (env : Env) (name version environment : String) (r : Response) :
    WriteToZip env name version environment (some r) =
      ⟨.osStat (exportDirectoryOf env environment) ::
          ((if env.osStatIsNotExist (exportDirectoryOf env environment) = true then
              [.osMkdir (exportDirectoryOf env environment) 0o777]
            else []) ++
          .ioutilWriteFile (exportFileOf env name version environment) r.Body 0o644 ::
            (match env.ioutilWriteFile (exportFileOf env name version environment) r.Body 0o644 with
              | some e => [.HandleErrorAndExit "Error creating zip archive" e]
              | none => [.Stdout "Succesfully exported API!\n"])),
        match env.ioutilWriteFile (exportFileOf env name version environment) r.Body 0o644 with
          | some _ => .exited
          | none => .ret ()⟩ := by
  simp only [WriteToZip, exportDirectoryOf, exportFileOf, Exec.bind_def, Exec.pure_def,
    Exec.bind, Exec.call, Exec.deref, fmtPrintln_one, HandleErrorAndExit]
  generalize env.ioutilWriteFile _ _ _ = err
  cases env.osStatIsNotExist (env.filepathJoin [env.ExportDirectory, environment]) <;>
    cases err <;> rfl

/-- The run of the command when the pre-command step fails. -/
theorem Run_of_pre_error (env : Env) (f : ExportAPIFlags) (creds endpoint : String) (e : GoError)
    (hpre : env.ExecutePreCommandWithBasicAuth f.exportEnvironment f.exportAPICmdUsername
      f.exportAPICmdPassword = (creds, endpoint, some e)) :
    ExportAPICmd.Run env f =
      ⟨[.Logln [env.LogPrefixInfo ++ exportAPICmdLiteral ++ " called"],
        .ExecutePreCommandWithBasicAuth f.exportEnvironment f.exportAPICmdUsername
          f.exportAPICmdPassword,
        .Stdout ("Error exporting API:" ++ e ++ "\n")], .ret ()⟩ := by
  simp only [ExportAPICmd.Run, Exec.bind_def, hpre]
  rfl

/-- The trace of the command when the pre-command step succeeds and `ExportAPI` returns
a response. -/
theorem Run_trace_of_response (env : Env) (f : ExportAPIFlags) (creds endpoint : String)
    (r : Response)
    (hpre : env.ExecutePreCommandWithBasicAuth f.exportEnvironment f.exportAPICmdUsername
      f.exportAPICmdPassword = (creds, endpoint, none))
    (hresp : (ExportAPI env f.exportAPIName f.exportAPIVersion f.exportProvider endpoint
      creds).out = .ret (some r)) :
    (ExportAPICmd.Run env f).trace =
      .Logln [env.LogPrefixInfo ++ exportAPICmdLiteral ++ " called"] ::
      .ExecutePreCommandWithBasicAuth f.exportEnvironment f.exportAPICmdUsername
          f.exportAPICmdPassword ::
      ((ExportAPI env f.exportAPIName f.exportAPIVersion f.exportProvider endpoint creds).trace ++
        .Logf "ResponseStatus: %v\n" [r.Status] :: .Logf "Error: %v\n" [r.Error] ::
          (if r.StatusCode = 200 then exportedTrace env f creds endpoint r
            else if r.StatusCode = 500 then [.Stdout "Incorrect password\n"]
            else [.Stdout ("Error exporting API:" ++ " " ++ r.Status ++ "\n")])) := by
  simp only [ExportAPICmd.Run, Exec.bind_def, Exec.pure_def, hpre]
  simp only [Exec.bind, Exec.call, List.singleton_append, List.nil_append]
  simp only [hresp, Exec.deref, Exec.pure_def, List.nil_append, exportedTrace, fmtPrintln_one,
    fmtPrintln_two, HandleErrorAndExit]
  by_cases h2 : r.StatusCode = 200
  · simp only [h2, if_true]
    cases (WriteToZip env f.exportAPIName f.exportAPIVersion f.exportEnvironment (some r)).out with
    | ret a => cases (env.GetAPIList f.exportAPIName creds endpoint).2 <;> rfl
    | exited => simp
    | panicked => simp
  · by_cases h5 : r.StatusCode = 500 <;> simp [h2, h5]

/-- The run of the command when the pre-command step succeeds and `ExportAPI` does not
return a response: nothing is done after `ExportAPI`. -/
theorem Run_trace_of_no_response (env : Env) (f : ExportAPIFlags) (creds endpoint : String)
    (hpre : env.ExecutePreCommandWithBasicAuth f.exportEnvironment f.exportAPICmdUsername
      f.exportAPICmdPassword = (creds, endpoint, none))
    (hresp : ∀ r, (ExportAPI env f.exportAPIName f.exportAPIVersion f.exportProvider endpoint
      creds).out ≠ .ret (some r)) :
    (ExportAPICmd.Run env f).trace =
      .Logln [env.LogPrefixInfo ++ exportAPICmdLiteral ++ " called"] ::
      .ExecutePreCommandWithBasicAuth f.exportEnvironment f.exportAPICmdUsername
          f.exportAPICmdPassword ::
      (ExportAPI env f.exportAPIName f.exportAPIVersion f.exportProvider endpoint creds).trace := by
  simp only [ExportAPICmd.Run, Exec.bind_def, Exec.pure_def, hpre]
  simp only [Exec.bind, Exec.call, List.singleton_append, List.nil_append]
  cases hX : (ExportAPI env f.exportAPIName f.exportAPIVersion f.exportProvider endpoint
      creds).out with
  | ret a =>
    cases a with
    | none => simp [Exec.deref, Exec.panic]
    | some r => exact absurd hX (hresp r)
  | exited => rfl
  | panicked => rfl

theorem stdoutOf_ExportAPI (env : Env) (name version provider apimEndpoint b64 : String) :
    stdoutOf (ExportAPI env name version provider apimEndpoint b64).trace = [] := by
  cases hl : apimEndpoint.data.getLast? with
  | none => rw [ExportAPI_of_empty _ _ _ _ _ _ hl]; rfl
  | some c =>
    rw [ExportAPI_of_last _ _ _ _ _ _ c hl]
    cases (env.InvokeGETRequest (exportAPIUrl env name version provider apimEndpoint c)
      (exportAPIHeaders env b64)).2 <;> rfl

theorem not_fileSystemCall_ExportAPI (env : Env) (name version provider apimEndpoint b64 : String) :
    ∀ e ∈ (ExportAPI env name version provider apimEndpoint b64).trace,
      isFileSystemCall e = false := by
  cases hl : apimEndpoint.data.getLast? with
  | none => rw [ExportAPI_of_empty _ _ _ _ _ _ hl]; simp
  | some c =>
    rw [ExportAPI_of_last _ _ _ _ _ _ c hl]
    cases (env.InvokeGETRequest (exportAPIUrl env name version provider apimEndpoint c)
      (exportAPIHeaders env b64)).2 <;> simp [isFileSystemCall]

theorem fileWritesOf_eq_nil (t : List Event) (h : ∀ e ∈ t, isFileSystemCall e = false) :
    fileWritesOf t = [] := by
  induction t with
  | nil => rfl
  | cons e t ih =>
    have he := h e (List.mem_cons_self _ _)
    have ht := ih (fun x hx => h x (List.mem_cons_of_mem _ hx))
    cases e <;> simp_all [fileWritesOf, isFileSystemCall]

/-- C1: after a successful pre-command step and for the response `ExportAPI` returned, a
status code of 500 makes the command print exactly "Incorrect password", and every status
code other than 200 and 500 makes it print exactly "Error exporting API:", a space and
the status text of the response, unchanged. -/
theorem Run_error_status (env : Env) (f : ExportAPIFlags) (creds endpoint : String)
    (r : Response)
    (hpre : env.ExecutePreCommandWithBasicAuth f.exportEnvironment f.exportAPICmdUsername
      f.exportAPICmdPassword = (creds, endpoint, none))
    (hresp : (ExportAPI env f.exportAPIName f.exportAPIVersion f.exportProvider endpoint
      creds).out = .ret (some r)) :
    (r.StatusCode = 500 →
      stdoutOf (ExportAPICmd.Run env f).trace = ["Incorrect password\n"]) ∧
    (r.StatusCode ≠ 200 → r.StatusCode ≠ 500 →
      stdoutOf (ExportAPICmd.Run env f).trace =
        ["Error exporting API: " ++ r.Status ++ "\n"]) := by
  rw [Run_trace_of_response env f creds endpoint r hpre hresp]
  have hs : "Error exporting API:" ++ " " = "Error exporting API: " := by decide
  constructor
  · intro h5
    simp [h5, stdoutOf, stdoutOf_append, stdoutOf_ExportAPI]
  · intro h2 h5
    simp [h2, h5, stdoutOf, stdoutOf_append, stdoutOf_ExportAPI, hs]

theorem Run_error_status_witness :
    stdoutOf (ExportAPICmd.Run (respondingEnv ⟨404, "404 Not Found", [], ""⟩) sampleFlags).trace =
      ["Error exporting API: " ++ "404 Not Found" ++ "\n"] :=
  (Run_error_status (respondingEnv ⟨404, "404 Not Found", [], ""⟩) sampleFlags
    "YWRtaW46YWRtaW4=" "https://localhost:9443" ⟨404, "404 Not Found", [], ""⟩ rfl rfl).2
    (by decide) (by decide)

theorem WriteToZip_trace_head (env : Env) (name version environment : String)
    (resp : Option Response) :
    ∃ rest, (WriteToZip env name version environment resp).trace =
      .osStat (exportDirectoryOf env environment) :: rest := by
  cases resp with
  | some r => rw [WriteToZip_eq]; exact ⟨_, rfl⟩
  | none =>
    simp only [WriteToZip, exportDirectoryOf, Exec.bind_def, Exec.pure_def, Exec.bind,
      Exec.call, Exec.deref, Exec.panic]
    cases env.osStatIsNotExist (env.filepathJoin [env.ExportDirectory, environment]) <;>
      exact ⟨_, rfl⟩

/-- Unless the pre-command step succeeded and the response has status 200, the command
makes no call into the file system. -/
theorem Run_no_fileSystemCall (env : Env) (f : ExportAPIFlags)
    (h : ¬ ∃ r, ExportedWith env f r) :
    ∀ e ∈ (ExportAPICmd.Run env f).trace, isFileSystemCall e = false := by
  rcases hpre : env.ExecutePreCommandWithBasicAuth f.exportEnvironment f.exportAPICmdUsername
      f.exportAPICmdPassword with ⟨creds, endpoint, perr⟩
  cases perr with
  | some e =>
    rw [Run_of_pre_error env f creds endpoint e hpre]
    simp [isFileSystemCall]
  | none =>
    by_cases hX : ∃ r, (ExportAPI env f.exportAPIName f.exportAPIVersion f.exportProvider
        endpoint creds).out = .ret (some r)
    · obtain ⟨r, hr⟩ := hX
      have h2 : r.StatusCode ≠ 200 := by
        intro h200
        exact h ⟨r, by simp [ExportedWith, hpre, hr, h200]⟩
      rw [Run_trace_of_response env f creds endpoint r hpre hr]
      intro e he
      simp only [List.mem_cons, List.mem_append, h2, if_false] at he
      rcases he with rfl | rfl | he | rfl | rfl | he
      · rfl
      · rfl
      · exact not_fileSystemCall_ExportAPI _ _ _ _ _ _ e he
      · rfl
      · rfl
      · by_cases h5 : r.StatusCode = 500 <;> simp [h5] at he <;> subst he <;> rfl
    · rw [Run_trace_of_no_response env f creds endpoint hpre (fun r hr => hX ⟨r, hr⟩)]
      intro e he
      simp only [List.mem_cons] at he
      rcases he with rfl | rfl | he
      · rfl
      · rfl
      · exact not_fileSystemCall_ExportAPI _ _ _ _ _ _ e he

/-- The run of the command when the pre-command step succeeded and the response has
status 200: the calls of `WriteToZip` are a segment of the trace. -/
theorem Run_trace_of_exported (env : Env) (f : ExportAPIFlags) (r : Response)
    (h : ExportedWith env f r) :
    ∃ before after,
      (ExportAPICmd.Run env f).trace = before ++
        (WriteToZip env f.exportAPIName f.exportAPIVersion f.exportEnvironment (some r)).trace ++
        after ∧
      fileWritesOf before = [] ∧ stdoutOf before = [] ∧
      fileWritesOf after = [] ∧
      (after ≠ [] → (WriteToZip env f.exportAPIName f.exportAPIVersion f.exportEnvironment
        (some r)).out = .ret ()) := by
  rcases hpre : env.ExecutePreCommandWithBasicAuth f.exportEnvironment f.exportAPICmdUsername
      f.exportAPICmdPassword with ⟨creds, endpoint, perr⟩
  obtain ⟨h1, h2, h3⟩ := h
  rw [hpre] at h1 h2
  simp only at h1 h2
  subst h1
  refine ⟨.Logln [env.LogPrefixInfo ++ exportAPICmdLiteral ++ " called"] ::
      .ExecutePreCommandWithBasicAuth f.exportEnvironment f.exportAPICmdUsername
          f.exportAPICmdPassword ::
      ((ExportAPI env f.exportAPIName f.exportAPIVersion f.exportProvider endpoint creds).trace ++
        [.Logf "ResponseStatus: %v\n" [r.Status], .Logf "Error: %v\n" [r.Error]]),
    (match (WriteToZip env f.exportAPIName f.exportAPIVersion f.exportEnvironment (some r)).out with
    | .ret _ =>
      .GetAPIList f.exportAPIName creds endpoint ::
        (match (env.GetAPIList f.exportAPIName creds endpoint).2 with
          | none => [.Stdout ("Number of APIs exported:" ++ " " ++
              toString (env.GetAPIList f.exportAPIName creds endpoint).1 ++ "\n")]
          | some e => [.HandleErrorAndExit "Error getting list of APIs" e])
    | _ => []), ?_, ?_, ?_, ?_, ?_⟩
  · rw [Run_trace_of_response env f creds endpoint r hpre h2]
    simp [h3, exportedTrace]
  · apply fileWritesOf_eq_nil
    intro e he
    simp only [List.mem_cons, List.mem_append, List.mem_singleton, List.not_mem_nil,
      or_false] at he
    rcases he with rfl | rfl | he | rfl | rfl
    · rfl
    · rfl
    · exact not_fileSystemCall_ExportAPI _ _ _ _ _ _ e he
    · rfl
    · rfl
  · simp [stdoutOf, stdoutOf_append, stdoutOf_ExportAPI]
  · cases (WriteToZip env f.exportAPIName f.exportAPIVersion f.exportEnvironment (some r)).out with
    | ret a => cases (env.GetAPIList f.exportAPIName creds endpoint).2 <;> rfl
    | exited => rfl
    | panicked => rfl
  · cases (WriteToZip env f.exportAPIName f.exportAPIVersion f.exportEnvironment (some r)).out with
    | ret a => simp
    | exited => simp
    | panicked => simp

/-- How the command ends when the pre-command step succeeded and `ExportAPI` returned a
response. -/
theorem Run_out_of_response (env : Env) (f : ExportAPIFlags) (creds endpoint : String)
    (r : Response)
    (hpre : env.ExecutePreCommandWithBasicAuth f.exportEnvironment f.exportAPICmdUsername
      f.exportAPICmdPassword = (creds, endpoint, none))
    (hresp : (ExportAPI env f.exportAPIName f.exportAPIVersion f.exportProvider endpoint
      creds).out = .ret (some r)) :
    (ExportAPICmd.Run env f).out =
      if r.StatusCode = 200 then
        match (WriteToZip env f.exportAPIName f.exportAPIVersion f.exportEnvironment
            (some r)).out with
        | .ret _ =>
          (match (env.GetAPIList f.exportAPIName creds endpoint).2 with
            | none => .ret ()
            | some _ => .exited)
        | .exited => .exited
        | .panicked => .panicked
      else .ret () := by
  simp only [ExportAPICmd.Run, Exec.bind_def, Exec.pure_def, hpre]
  simp only [Exec.bind, Exec.call, List.singleton_append, List.nil_append]
  simp only [hresp, Exec.deref, Exec.pure_def, fmtPrintln_one, fmtPrintln_two,
    HandleErrorAndExit]
  by_cases h2 : r.StatusCode = 200
  · simp only [h2, if_true]
    cases (WriteToZip env f.exportAPIName f.exportAPIVersion f.exportEnvironment (some r)).out with
    | ret a => cases (env.GetAPIList f.exportAPIName creds endpoint).2 <;> rfl
    | exited => rfl
    | panicked => rfl
  · by_cases h5 : r.StatusCode = 500 <;> simp [h2, h5]

/-- C2, as amended: `WriteToZip` is invoked if and only if the pre-command step succeeded
and the response status code is exactly 200. When it is invoked it makes exactly one
attempt to write the archive, with the response body, and the success message is printed
exactly when that write succeeds; when the write fails, the command exits through
`utils.HandleErrorAndExit`, called with the message of the archive and the error of the
write as the last call of the run. For every other status code no file is written. -/
theorem Run_WriteToZip_iff (env : Env) (f : ExportAPIFlags) :
    ((∃ resp, (WriteToZip env f.exportAPIName f.exportAPIVersion f.exportEnvironment resp).trace
        <:+: (ExportAPICmd.Run env f).trace) ↔ ∃ r, ExportedWith env f r) ∧
    (∀ r, ExportedWith env f r →
      (WriteToZip env f.exportAPIName f.exportAPIVersion f.exportEnvironment (some r)).trace
        <:+: (ExportAPICmd.Run env f).trace ∧
      fileWritesOf (ExportAPICmd.Run env f).trace =
        [(env.filepathJoin [env.filepathJoin [env.ExportDirectory, f.exportEnvironment],
          f.exportAPIName ++ "_" ++ f.exportAPIVersion ++ ".zip"], r.Body)] ∧
      ("Succesfully exported API!\n" ∈ stdoutOf (ExportAPICmd.Run env f).trace ↔
        env.ioutilWriteFile
          (env.filepathJoin [env.filepathJoin [env.ExportDirectory, f.exportEnvironment],
            f.exportAPIName ++ "_" ++ f.exportAPIVersion ++ ".zip"]) r.Body 0o644 = none) ∧
      (∀ e, env.ioutilWriteFile
          (env.filepathJoin [env.filepathJoin [env.ExportDirectory, f.exportEnvironment],
            f.exportAPIName ++ "_" ++ f.exportAPIVersion ++ ".zip"]) r.Body 0o644 = some e →
        (ExportAPICmd.Run env f).out = .exited ∧
        (ExportAPICmd.Run env f).trace.getLast? =
          some (.HandleErrorAndExit "Error creating zip archive" e))) ∧
    ((¬ ∃ r, ExportedWith env f r) → fileWritesOf (ExportAPICmd.Run env f).trace = []) := by
  have hinv : ∀ r, ExportedWith env f r →
      (WriteToZip env f.exportAPIName f.exportAPIVersion f.exportEnvironment (some r)).trace
        <:+: (ExportAPICmd.Run env f).trace := by
    intro r hr
    obtain ⟨before, after, ht, -⟩ := Run_trace_of_exported env f r hr
    exact ⟨before, after, ht.symm⟩
  refine ⟨⟨?_, ?_⟩, ?_, ?_⟩
  · rintro ⟨resp, hseg⟩
    by_contra hno
    obtain ⟨rest, hrest⟩ := WriteToZip_trace_head env f.exportAPIName f.exportAPIVersion
      f.exportEnvironment resp
    have hmem : Event.osStat (exportDirectoryOf env f.exportEnvironment) ∈
        (ExportAPICmd.Run env f).trace := by
      apply hseg.subset
      rw [hrest]
      exact List.mem_cons_self _ _
    have := Run_no_fileSystemCall env f hno _ hmem
    simp [isFileSystemCall] at this
  · rintro ⟨r, hr⟩
    exact ⟨some r, hinv r hr⟩
  · intro r hr
    have hexit : ∀ e, env.ioutilWriteFile
          (env.filepathJoin [env.filepathJoin [env.ExportDirectory, f.exportEnvironment],
            f.exportAPIName ++ "_" ++ f.exportAPIVersion ++ ".zip"]) r.Body 0o644 = some e →
        (ExportAPICmd.Run env f).out = .exited ∧
        (ExportAPICmd.Run env f).trace.getLast? =
          some (.HandleErrorAndExit "Error creating zip archive" e) := by
      intro e herr
      have hW := WriteToZip_eq env f.exportAPIName f.exportAPIVersion f.exportEnvironment r
      simp only [exportFileOf, exportDirectoryOf, herr] at hW
      constructor
      · rcases hpre : env.ExecutePreCommandWithBasicAuth f.exportEnvironment
          f.exportAPICmdUsername f.exportAPICmdPassword with ⟨creds, endpoint, perr⟩
        obtain ⟨h1, h2, h3⟩ := hr
        rw [hpre] at h1 h2
        simp only at h1 h2
        subst h1
        rw [Run_out_of_response env f creds endpoint r hpre h2, if_pos h3, hW]
      · obtain ⟨before, after, ht, -, -, -, hout⟩ := Run_trace_of_exported env f r hr
        have hafter : after = [] := by
          by_contra hne
          have := hout hne
          rw [hW] at this
          simp at this
        subst hafter
        rw [ht, hW]
        cases env.osStatIsNotExist
          (env.filepathJoin [env.ExportDirectory, f.exportEnvironment]) <;> simp
    refine ⟨hinv r hr, ?_⟩
    rw [← and_assoc]
    refine ⟨?_, hexit⟩
    obtain ⟨before, after, ht, hb, hsb, ha, hout⟩ := Run_trace_of_exported env f r hr
    rw [ht]
    rw [WriteToZip_eq] at hout ⊢
    simp only [exportFileOf, exportDirectoryOf] at hout ⊢
    cases herr : env.ioutilWriteFile
        (env.filepathJoin [env.filepathJoin [env.ExportDirectory, f.exportEnvironment],
          f.exportAPIName ++ "_" ++ f.exportAPIVersion ++ ".zip"]) r.Body 0o644 with
    | none =>
      cases env.osStatIsNotExist (env.filepathJoin [env.ExportDirectory, f.exportEnvironment]) <;>
        simp [fileWritesOf_append, stdoutOf_append, fileWritesOf, stdoutOf, hb, hsb, ha]
    | some e =>
      have hafter : after = [] := by
        by_contra hne
        have := hout hne
        simp [herr] at this
      subst hafter
      cases env.osStatIsNotExist (env.filepathJoin [env.ExportDirectory, f.exportEnvironment]) <;>
        simp [fileWritesOf_append, stdoutOf_append, fileWritesOf, stdoutOf, hb, hsb]
  · intro hno
    exact fileWritesOf_eq_nil _ (Run_no_fileSystemCall env f hno)

/-- C2, as stated, fails: with a response of status 200 and a failing `ioutil.WriteFile`,
`WriteToZip` is invoked, yet no archive is written and the success message is not
printed; the command exits through `utils.HandleErrorAndExit`. -/
theorem Run_WriteToZip_write_fails :
    ExportedWith writeFailingEnv sampleFlags ⟨200, "200 OK", [80, 75], ""⟩ ∧
      (WriteToZip writeFailingEnv "MyAPI" "1.0.0" "dev" (some ⟨200, "200 OK", [80, 75], ""⟩)).trace
        <:+: (ExportAPICmd.Run writeFailingEnv sampleFlags).trace ∧
      writeFailingEnv.ioutilWriteFile "exported/dev/MyAPI_1.0.0.zip" [80, 75] 0o644 =
        some "permission denied" ∧
      "Succesfully exported API!\n" ∉
        stdoutOf (ExportAPICmd.Run writeFailingEnv sampleFlags).trace ∧
      (ExportAPICmd.Run writeFailingEnv sampleFlags).out = .exited := by
  refine ⟨⟨rfl, rfl, rfl⟩, ?_, rfl, ?_, ?_⟩
  · decide
  · decide
  · decide

/-! ## The archive name of an exported application -/

theorem utf8ByteSize_go_map_slash (l : List Char) :
    String.utf8ByteSize.go (l.map (fun c => if c = '/' then '#' else c)) =
      String.utf8ByteSize.go l := by
  induction l with
  | nil => rfl
  | cons c cs ih =>
    by_cases hc : c = '/'
    · subst hc
      simp only [List.map, String.utf8ByteSize.go, ih]
      rfl
    · simp only [List.map, if_neg hc, String.utf8ByteSize.go, ih]

/-- C11: for every user name, the result of `replaceUserStoreDomainDelimiter` has as
many characters (and as many bytes) as the user name, contains no `/`, has `#` at every
position where the user name has `/`, and has the character of the user name at every
other position. -/
theorem replaceUserStoreDomainDelimiter_spec (u : String) :
    (replaceUserStoreDomainDelimiter u).data.length = u.data.length ∧
      (replaceUserStoreDomainDelimiter u).utf8ByteSize = u.utf8ByteSize ∧
      '/' ∉ (replaceUserStoreDomainDelimiter u).data ∧
      ∀ (i : Nat) (c : Char), u.data[i]? = some c →
        (c = '/' → (replaceUserStoreDomainDelimiter u).data[i]? = some '#') ∧
        (c ≠ '/' → (replaceUserStoreDomainDelimiter u).data[i]? = some c) := by
  have hd := replaceUserStoreDomainDelimiter_data u
  refine ⟨?_, ?_, ?_, ?_⟩
  · rw [hd, List.length_map]
  · show String.utf8ByteSize.go (replaceUserStoreDomainDelimiter u).data =
      String.utf8ByteSize.go u.data
    rw [hd, utf8ByteSize_go_map_slash]
  · rw [hd]
    intro hmem
    obtain ⟨c, -, hc⟩ := List.mem_map.mp hmem
    by_cases h : c = '/'
    · simp [h] at hc
    · simp [h] at hc
  · intro i c hi
    rw [hd, List.getElem?_map, hi]
    constructor
    · intro h; simp [h]
    · intro h; simp [h]

theorem WriteApplicationToZip_head (env : Env) (name owner zipLocationPath : String)
    (resp : Option Response) :
    (WriteApplicationToZip env name owner zipLocationPath resp).trace.head? =
      some (.WriteResponseToTempZip (appZipFilename name owner) resp) := by
  rw [WriteApplicationToZip_eq]
  split
  · rfl
  · split
    · rfl
    · split <;> rfl

/-- C12, at the failing input: the owner `john_doe` with the application `app` and the
owner `john` with the application `doe_app` are different pairs, and
`WriteApplicationToZip` computes the same zip file name `john_doe_app.zip` for both; so
do the owners `DOM/admin` and `DOM#admin` with one application name. -/
theorem WriteApplicationToZip_name_collision (env : Env) (zipLocationPath : String)
    (resp : Option Response) :
    ("john_doe", "app") ≠ ("john", "doe_app") ∧
      (WriteApplicationToZip env "app" "john_doe" zipLocationPath resp).trace.head? =
        some (.WriteResponseToTempZip "john_doe_app.zip" resp) ∧
      (WriteApplicationToZip env "doe_app" "john" zipLocationPath resp).trace.head? =
        some (.WriteResponseToTempZip "john_doe_app.zip" resp) ∧
      "DOM/admin" ≠ "DOM#admin" ∧
      (WriteApplicationToZip env "app" "DOM/admin" zipLocationPath resp).trace.head? =
        (WriteApplicationToZip env "app" "DOM#admin" zipLocationPath resp).trace.head? := by
  refine ⟨by decide, ?_, ?_, by decide, ?_⟩
  · rw [WriteApplicationToZip_head]
    have : appZipFilename "app" "john_doe" = "john_doe_app.zip" := by decide
    rw [this]
  · rw [WriteApplicationToZip_head]
    have : appZipFilename "doe_app" "john" = "john_doe_app.zip" := by decide
    rw [this]
  · rw [WriteApplicationToZip_head, WriteApplicationToZip_head]
    have : appZipFilename "app" "DOM/admin" = appZipFilename "app" "DOM#admin" := by decide
    rw [this]

/-- C14: `WriteApplicationToZip` runs the steps temporary zip, directory creation and
meta-file inclusion in this order; the first step that fails ends the run through
`utils.HandleErrorAndExit` with the message of that step, and no later step is run; the
two success messages are printed, after the three steps, exactly when all three
succeed, and nothing is printed otherwise. -/
theorem WriteApplicationToZip_steps (env : Env) (name owner zipLocationPath : String)
    (resp : Option Response) :
    (∀ e, (env.WriteResponseToTempZip (appZipFilename name owner) resp).2 = some e →
      WriteApplicationToZip env name owner zipLocationPath resp =
        ⟨[.WriteResponseToTempZip (appZipFilename name owner) resp,
          .HandleErrorAndExit
            "Error creating the temporary zip file to store the exported application" e],
          .exited⟩) ∧
    ((env.WriteResponseToTempZip (appZipFilename name owner) resp).2 = none →
      ∀ e, env.CreateDirIfNotExist zipLocationPath = some e →
      WriteApplicationToZip env name owner zipLocationPath resp =
        ⟨[.WriteResponseToTempZip (appZipFilename name owner) resp,
          .CreateDirIfNotExist zipLocationPath,
          .HandleErrorAndExit ("Error creating dir to store zip archive: " ++ zipLocationPath) e],
          .exited⟩) ∧
    ((env.WriteResponseToTempZip (appZipFilename name owner) resp).2 = none →
      env.CreateDirIfNotExist zipLocationPath = none →
      ∀ e, env.IncludeMetaFileToZip
          (env.WriteResponseToTempZip (appZipFilename name owner) resp).1
          (env.filepathJoin [zipLocationPath, appZipFilename name owner])
          env.MetaFileApplication (appMetaData name owner) = some e →
      WriteApplicationToZip env name owner zipLocationPath resp =
        ⟨[.WriteResponseToTempZip (appZipFilename name owner) resp,
          .CreateDirIfNotExist zipLocationPath,
          .IncludeMetaFileToZip (env.WriteResponseToTempZip (appZipFilename name owner) resp).1
            (env.filepathJoin [zipLocationPath, appZipFilename name owner])
            env.MetaFileApplication (appMetaData name owner),
          .HandleErrorAndExit
            "Error creating the final zip archive with application_meta.yaml file" e],
          .exited⟩) ∧
    ((env.WriteResponseToTempZip (appZipFilename name owner) resp).2 = none →
      env.CreateDirIfNotExist zipLocationPath = none →
      env.IncludeMetaFileToZip
          (env.WriteResponseToTempZip (appZipFilename name owner) resp).1
          (env.filepathJoin [zipLocationPath, appZipFilename name owner])
          env.MetaFileApplication (appMetaData name owner) = none →
      WriteApplicationToZip env name owner zipLocationPath resp =
        ⟨[.WriteResponseToTempZip (appZipFilename name owner) resp,
          .CreateDirIfNotExist zipLocationPath,
          .IncludeMetaFileToZip (env.WriteResponseToTempZip (appZipFilename name owner) resp).1
            (env.filepathJoin [zipLocationPath, appZipFilename name owner])
            env.MetaFileApplication (appMetaData name owner),
          .Stdout "Successfully exported Application!\n",
          .Stdout ("Find the exported Application at " ++
            env.filepathJoin [zipLocationPath, appZipFilename name owner] ++ "\n")],
          .ret ()⟩) ∧
    (stdoutOf (WriteApplicationToZip env name owner zipLocationPath resp).trace =
        (if (env.WriteResponseToTempZip (appZipFilename name owner) resp).2 = none ∧
            env.CreateDirIfNotExist zipLocationPath = none ∧
            env.IncludeMetaFileToZip
              (env.WriteResponseToTempZip (appZipFilename name owner) resp).1
              (env.filepathJoin [zipLocationPath, appZipFilename name owner])
              env.MetaFileApplication (appMetaData name owner) = none
          then ["Successfully exported Application!\n",
            "Find the exported Application at " ++
              env.filepathJoin [zipLocationPath, appZipFilename name owner] ++ "\n"]
          else [])) := by
  rw [WriteApplicationToZip_eq]
  refine ⟨?_, ?_, ?_, ?_, ?_⟩
  · intro e h1
    simp only [h1]
  · intro h1 e h2
    simp only [h1, h2]
  · intro h1 h2 e h3
    simp only [h1, h2, h3]
  · intro h1 h2 h3
    simp only [h1, h2, h3]
  · cases h1 : (env.WriteResponseToTempZip (appZipFilename name owner) resp).2 with
    | some e => simp [stdoutOf]
    | none =>
      cases h2 : env.CreateDirIfNotExist zipLocationPath with
      | some e => simp [stdoutOf]
      | none =>
        cases h3 : env.IncludeMetaFileToZip
          (env.WriteResponseToTempZip (appZipFilename name owner) resp).1
          (env.filepathJoin [zipLocationPath, appZipFilename name owner])
          env.MetaFileApplication (appMetaData name owner) with
        | some e => simp [stdoutOf]
        | none => simp [stdoutOf]

theorem WriteApplicationToZip_steps_witness :
    WriteApplicationToZip sampleEnv "testApp" "admin" "exported/apps" none =
      ⟨[.WriteResponseToTempZip (appZipFilename "testApp" "admin") none,
        .CreateDirIfNotExist "exported/apps",
        .IncludeMetaFileToZip
          (sampleEnv.WriteResponseToTempZip (appZipFilename "testApp" "admin") none).1
          (sampleEnv.filepathJoin ["exported/apps", appZipFilename "testApp" "admin"])
          sampleEnv.MetaFileApplication (appMetaData "testApp" "admin"),
        .Stdout "Successfully exported Application!\n",
        .Stdout ("Find the exported Application at " ++
          sampleEnv.filepathJoin ["exported/apps", appZipFilename "testApp" "admin"] ++ "\n")],
        .ret ()⟩ :=
  (WriteApplicationToZip_steps sampleEnv "testApp" "admin" "exported/apps" none).2.2.2.1
    rfl rfl rfl

/-- C15, at the failing input: `os.Stat` reports that the export directory does not
exist, `os.Mkdir` fails, and `WriteToZip` goes on, since it does not look at the result
of `os.Mkdir`: it writes the archive, prints the success message and returns, and the
command ends without any error message. -/
theorem WriteToZip_mkdir_fails :
    mkdirFailingEnv.osStatIsNotExist "exported/dev" = true ∧
      mkdirFailingEnv.osMkdir "exported/dev" 0o777 = some "mkdir exported/dev: file exists" ∧
      WriteToZip mkdirFailingEnv "MyAPI" "1.0.0" "dev" (some ⟨200, "200 OK", [80, 75], ""⟩) =
        ⟨[.osStat "exported/dev", .osMkdir "exported/dev" 0o777,
          .ioutilWriteFile "exported/dev/MyAPI_1.0.0.zip" [80, 75] 0o644,
          .Stdout "Succesfully exported API!\n"], .ret ()⟩ ∧
      stdoutOf (ExportAPICmd.Run mkdirFailingEnv sampleFlags).trace =
        ["Succesfully exported API!\n", "Number of APIs exported: 1\n"] ∧
      (ExportAPICmd.Run mkdirFailingEnv sampleFlags).out = .ret () := by
  refine ⟨rfl, rfl, ?_, ?_, ?_⟩ <;> decide

/-- What does hold for a failed directory creation in `WriteToZip`: when the write of the
archive fails as well, the run ends through `utils.HandleErrorAndExit` with the message
of the archive, and the success message is not printed. -/
theorem WriteToZip_exits_of_write_error (env : Env) (name version environment : String) (r : Response)
    (e : GoError)
    (hw : env.ioutilWriteFile (exportFileOf env name version environment) r.Body 0o644 = some e) :
    (WriteToZip env name version environment (some r)).out = .exited ∧
      stdoutOf (WriteToZip env name version environment (some r)).trace = [] ∧
      (WriteToZip env name version environment (some r)).trace.getLast? =
        some (.HandleErrorAndExit "Error creating zip archive" e) := by
  rw [WriteToZip_eq, hw]
  cases env.osStatIsNotExist (exportDirectoryOf env environment) <;> simp [stdoutOf]

/-- C17: when the pre-command step returns an error, the command logs its start, calls
the pre-command step, prints "Error exporting API:" followed by the text of the error,
and returns: it sends no HTTP request and makes no call into the file system. -/
theorem Run_pre_error (env : Env) (f : ExportAPIFlags) (e : GoError)
    (hpre : (env.ExecutePreCommandWithBasicAuth f.exportEnvironment f.exportAPICmdUsername
      f.exportAPICmdPassword).2.2 = some e) :
    ExportAPICmd.Run env f =
        ⟨[.Logln [env.LogPrefixInfo ++ exportAPICmdLiteral ++ " called"],
          .ExecutePreCommandWithBasicAuth f.exportEnvironment f.exportAPICmdUsername
            f.exportAPICmdPassword,
          .Stdout ("Error exporting API:" ++ e ++ "\n")], .ret ()⟩ ∧
      getRequestsOf (ExportAPICmd.Run env f).trace = [] ∧
      fileWritesOf (ExportAPICmd.Run env f).trace = [] ∧
      (∀ ev ∈ (ExportAPICmd.Run env f).trace, isFileSystemCall ev = false) ∧
      stdoutOf (ExportAPICmd.Run env f).trace = ["Error exporting API:" ++ e ++ "\n"] := by
  rcases hp : env.ExecutePreCommandWithBasicAuth f.exportEnvironment f.exportAPICmdUsername
      f.exportAPICmdPassword with ⟨creds, endpoint, perr⟩
  rw [hp] at hpre
  simp only at hpre
  subst hpre
  rw [Run_of_pre_error env f creds endpoint e hp]
  refine ⟨rfl, rfl, rfl, ?_, rfl⟩
  intro ev hev
  simp only [List.mem_cons, List.mem_singleton, List.not_mem_nil, or_false] at hev
  rcases hev with rfl | rfl | rfl <;> rfl

theorem Run_pre_error_witness :
    ExportAPICmd.Run preFailingEnv sampleFlags =
        ⟨[.Logln [preFailingEnv.LogPrefixInfo ++ exportAPICmdLiteral ++ " called"],
          .ExecutePreCommandWithBasicAuth sampleFlags.exportEnvironment
            sampleFlags.exportAPICmdUsername sampleFlags.exportAPICmdPassword,
          .Stdout ("Error exporting API:" ++ "environment not found" ++ "\n")], .ret ()⟩ ∧
      getRequestsOf (ExportAPICmd.Run preFailingEnv sampleFlags).trace = [] ∧
      fileWritesOf (ExportAPICmd.Run preFailingEnv sampleFlags).trace = [] ∧
      (∀ ev ∈ (ExportAPICmd.Run preFailingEnv sampleFlags).trace,
        isFileSystemCall ev = false) ∧
      stdoutOf (ExportAPICmd.Run preFailingEnv sampleFlags).trace =
        ["Error exporting API:" ++ "environment not found" ++ "\n"] :=
  Run_pre_error preFailingEnv sampleFlags "environment not found" rfl

/-! ## The validations of the integration tests -/

theorem Override_foldl {ρ σ : Type} (l : List (Subscription ρ)) (c : Int)
    (acc : List (Subscription ρ)) (d : σ) :
    l.foldl
      (fun (subscriptionsList1Copy : SubscriptionList ρ σ) subscription =>
        let subscription := { subscription with SubscriptionID := "override_with_same_value" }
        let subscription := { subscription with APIID := "override_with_same_value" }
        let subscription := { subscription with ApplicationID := "override_with_same_value" }
        { subscriptionsList1Copy with List := subscriptionsList1Copy.List.append subscription })
      ⟨c, some acc, d⟩ = ⟨c, some (acc ++ l.map overrideSubscription), d⟩ := by
  induction l generalizing acc with
  | nil => simp
  | cons s l ih =>
    rw [List.foldl_cons]
    show l.foldl _ (⟨c, some (acc ++ [overrideSubscription s]), d⟩ : SubscriptionList ρ σ) = _
    rw [ih]
    simp

/-- The result of `OverrideDifferedPropertiesOfSubscriptions` on a list. -/
theorem Override_eq {ρ σ : Type} [Inhabited σ] (L : SubscriptionList ρ σ) :
    OverrideDifferedPropertiesOfSubscriptions (some L) =
      some ⟨L.Count, some (L.List.elems.map overrideSubscription), default⟩ := by
  simp only [OverrideDifferedPropertiesOfSubscriptions]
  rw [Override_foldl]
  simp

theorem map_overrideSubscription_eq_iff {ρ : Type} (l1 l2 : List (Subscription ρ)) :
    l1.map overrideSubscription = l2.map overrideSubscription ↔
      l1.length = l2.length ∧
        ∀ (i : Nat) (a b : Subscription ρ), l1[i]? = some a → l2[i]? = some b →
          a.rest = b.rest := by
  induction l1 generalizing l2 with
  | nil =>
    cases l2 with
    | nil => simp
    | cons b l2 => simp
  | cons a l1 ih =>
    cases l2 with
    | nil => simp
    | cons b l2 =>
      simp only [List.map_cons, List.cons.injEq, ih, List.length_cons, Nat.add_right_cancel_iff]
      constructor
      · rintro ⟨hab, hlen, hrest⟩
        refine ⟨hlen, ?_⟩
        intro i x y hx hy
        cases i with
        | zero =>
          simp only [List.getElem?_cons_zero, Option.some.injEq] at hx hy
          subst hx hy
          simpa [overrideSubscription] using hab
        | succ i =>
          simp only [List.getElem?_cons_succ] at hx hy
          exact hrest i x y hx hy
      · rintro ⟨hlen, hrest⟩
        refine ⟨?_, hlen, ?_⟩
        · have := hrest 0 a b (by simp) (by simp)
          simp [overrideSubscription, this]
        · intro i x y hx hy
          exact hrest (i + 1) x y (by simpa using hx) (by simpa using hy)

theorem assertEqual_cases {α : Type} [DecidableEq α] (t : T) (a b : α) (msg : String) :
    assertEqual t a b msg = t ∨ assertEqual t a b msg = t ++ [msg] := by
  unfold assertEqual
  by_cases h : a = b <;> simp [h]

theorem assertEqual_eq_self_iff {α : Type} [DecidableEq α] (t : T) (a b : α) (msg : String) :
    assertEqual t a b msg = t ↔ a = b := by
  unfold assertEqual
  by_cases h : a = b <;> simp [h]

/-- C18: with `apim.CopyApp` a field-for-field copy, `ValidateAppsEqual` records no
failure if and only if the two applications agree on every field other than
`ApplicationID`, other than `SubscriptionCount` and `SubscriptionScopes` when
`SkipSubscriptions` is set, and other than `Keys` when `WithKeys` is set; otherwise it
records the failure "Application objects are not equal". -/
theorem ValidateAppsEqual_iff {κ ρ : Type} [DecidableEq κ] [DecidableEq ρ]
    (CopyApp : Application κ ρ → Application κ ρ) (t : T) (args : AppImportExportTestArgs κ ρ)
    (app2 : Application κ ρ) (hcopy : ∀ a, CopyApp a = a) :
    (ValidateAppsEqual CopyApp t args app2 = t ↔
      args.Application.rest = app2.rest ∧
      (args.SkipSubscriptions = false →
        args.Application.SubscriptionCount = app2.SubscriptionCount ∧
        args.Application.SubscriptionScopes = app2.SubscriptionScopes) ∧
      (args.WithKeys = false → args.Application.Keys = app2.Keys)) ∧
    (ValidateAppsEqual CopyApp t args app2 = t ∨
      ValidateAppsEqual CopyApp t args app2 = t ++ ["Application objects are not equal"]) := by
  obtain ⟨⟨id1, n1, sc1, k1, r1⟩, wk, sk, ss⟩ := args
  obtain ⟨id2, n2, sc2, k2, r2⟩ := app2
  constructor
  · simp only [ValidateAppsEqual, hcopy, assertEqual_eq_self_iff]
    cases wk <;> cases ss <;> simp <;> tauto
  · exact assertEqual_cases _ _ _ _

theorem ValidateAppsEqual_iff_witness :
    (ValidateAppsEqual (fun a : Application String String => a) []
        ⟨⟨"8f1c", 2, some ["apim:subscribe"], some ["PRODUCTION"], "SampleApp"⟩, true, false, true⟩
        ⟨"77aa", 0, none, none, "SampleApp"⟩ = [] ↔
      "SampleApp" = "SampleApp" ∧
      (true = false → (2 : Int) = 0 ∧ (some ["apim:subscribe"] : GoSlice String) = none) ∧
      (true = false → (some ["PRODUCTION"] : GoSlice String) = none)) ∧
    (ValidateAppsEqual (fun a : Application String String => a) []
        ⟨⟨"8f1c", 2, some ["apim:subscribe"], some ["PRODUCTION"], "SampleApp"⟩, true, false, true⟩
        ⟨"77aa", 0, none, none, "SampleApp"⟩ = [] ∨
      ValidateAppsEqual (fun a : Application String String => a) []
        ⟨⟨"8f1c", 2, some ["apim:subscribe"], some ["PRODUCTION"], "SampleApp"⟩, true, false, true⟩
        ⟨"77aa", 0, none, none, "SampleApp"⟩ = [] ++ ["Application objects are not equal"]) :=
  ValidateAppsEqual_iff (fun a : Application String String => a) []
    ⟨⟨"8f1c", 2, some ["apim:subscribe"], some ["PRODUCTION"], "SampleApp"⟩, true, false, true⟩
    ⟨"77aa", 0, none, none, "SampleApp"⟩ (fun _ => rfl)

/-- C19: on two subscription lists `validateSubscriptionsOfApp` returns, and it records
no failure if and only if the lists have the same `Count`, the same number of entries,
and at every position entries that are equal in every field other than
`SubscriptionID`, `APIID` and `ApplicationID`; otherwise it records "Subscriptions
objects are not equal". A nil list and an empty list with the same `Count` pass. -/
theorem validateSubscriptionsOfApp_iff {ρ σ : Type} [Inhabited σ] [DecidableEq ρ]
    [DecidableEq σ] (t : T) (L1 L2 : SubscriptionList ρ σ) :
    (validateSubscriptionsOfApp t (some L1) (some L2) = some t ↔
      L1.Count = L2.Count ∧ L1.List.elems.length = L2.List.elems.length ∧
        ∀ (i : Nat) (a b : Subscription ρ), L1.List.elems[i]? = some a →
          L2.List.elems[i]? = some b → a.rest = b.rest) ∧
    (validateSubscriptionsOfApp t (some L1) (some L2) = some t ∨
      validateSubscriptionsOfApp t (some L1) (some L2) =
        some (t ++ ["Subscriptions objects are not equal"])) ∧
    (∀ (c : Int) (r1 r2 : σ),
      validateSubscriptionsOfApp t (some (⟨c, none, r1⟩ : SubscriptionList ρ σ))
        (some ⟨c, some [], r2⟩) = some t) := by
  have hv : ∀ A B : SubscriptionList ρ σ, validateSubscriptionsOfApp t (some A) (some B) =
      some (assertEqual t
        (⟨A.Count, some (A.List.elems.map overrideSubscription), default⟩ : SubscriptionList ρ σ)
        ⟨B.Count, some (B.List.elems.map overrideSubscription), default⟩
        "Subscriptions objects are not equal") := by
    intro A B
    simp only [validateSubscriptionsOfApp, Override_eq]
    rfl
  refine ⟨?_, ?_, ?_⟩
  · rw [hv, Option.some.injEq, assertEqual_eq_self_iff, SubscriptionList.mk.injEq,
      Option.some.injEq, map_overrideSubscription_eq_iff]
    simp
  · rw [hv]
    rcases assertEqual_cases t
      (⟨L1.Count, some (L1.List.elems.map overrideSubscription), default⟩ : SubscriptionList ρ σ)
      ⟨L2.Count, some (L2.List.elems.map overrideSubscription), default⟩
      "Subscriptions objects are not equal" with h | h
    · exact Or.inl (congrArg some h)
    · exact Or.inr (congrArg some h)
  · intro c r1 r2
    rw [hv]
    simp [assertEqual, GoSlice.elems]

/-- C20: on a subscription list `OverrideDifferedPropertiesOfSubscriptions` returns a
list with the same `Count`, whatever the number of entries, and a non-nil slice with as
many entries in the same order; every entry has `SubscriptionID`, `APIID` and
`ApplicationID` set to "override_with_same_value" and every other field unchanged. -/
theorem OverrideDifferedPropertiesOfSubscriptions_spec {ρ σ : Type} [Inhabited σ]
    (L : SubscriptionList ρ σ) :
    ∃ R : SubscriptionList ρ σ,
      OverrideDifferedPropertiesOfSubscriptions (some L) = some R ∧
      R.Count = L.Count ∧
      R.List ≠ none ∧
      R.List.elems.length = L.List.elems.length ∧
      ∀ (i : Nat) (s : Subscription ρ), L.List.elems[i]? = some s →
        ∃ r : Subscription ρ, R.List.elems[i]? = some r ∧
          r.SubscriptionID = "override_with_same_value" ∧
          r.APIID = "override_with_same_value" ∧
          r.ApplicationID = "override_with_same_value" ∧
          r.rest = s.rest := by
  refine ⟨_, Override_eq L, rfl, by simp, by simp [GoSlice.elems], ?_⟩
  intro i s hs
  refine ⟨overrideSubscription s, ?_, rfl, rfl, rfl, rfl⟩
  simp [GoSlice.elems] at hs ⊢
  simp [hs]

/-! ## Lemmas on `filepath.Clean` and `filepath.Join` -/

namespace Filepath

theorem splitPath_ne_nil (l : List Char) : splitPath l ≠ [] := by
  cases l with
  | nil => simp [splitPath]
  | cons c cs =>
    unfold splitPath
    by_cases hc : c = '/'
    · simp [hc]
    · simp only [hc, if_false]
      cases splitPath cs <;> simp

theorem splitPath_cons_of_ne (c : Char) (cs : List Char) (hc : c ≠ '/') :
    ∃ e es, splitPath cs = e :: es ∧ splitPath (c :: cs) = (c :: e) :: es := by
  cases h : splitPath cs with
  | nil => exact absurd h (splitPath_ne_nil cs)
  | cons e es =>
    refine ⟨e, es, rfl, ?_⟩
    simp [splitPath, hc, h]

theorem splitPath_append_slash (a b : List Char) :
    splitPath (a ++ '/' :: b) = splitPath a ++ splitPath b := by
  induction a with
  | nil => simp [splitPath]
  | cons c cs ih =>
    by_cases hc : c = '/'
    · subst hc
      simp [splitPath, ih]
    · obtain ⟨e, es, h1, h2⟩ := splitPath_cons_of_ne c cs hc
      rw [h2]
      obtain ⟨e2, es2, h3, h4⟩ := splitPath_cons_of_ne c (cs ++ '/' :: b) hc
      rw [List.cons_append, h4]
      rw [ih, h1] at h3
      simp only [List.cons_append, List.cons.injEq] at h3
      obtain ⟨rfl, rfl⟩ := h3
      rfl

theorem splitPath_of_no_slash (e : List Char) (h : '/' ∉ e) : splitPath e = [e] := by
  induction e with
  | nil => rfl
  | cons c cs ih =>
    have hc : c ≠ '/' := fun hc => h (by simp [hc])
    have hcs : '/' ∉ cs := fun hm => h (List.mem_cons_of_mem _ hm)
    simp [splitPath, hc, ih hcs]

theorem splitPath_joinSlash (l : List (List Char)) (hne : l ≠ [])
    (h : ∀ e ∈ l, '/' ∉ e) : splitPath (joinSlash l) = l := by
  induction l with
  | nil => exact absurd rfl hne
  | cons e es ih =>
    cases es with
    | nil => simpa [joinSlash] using splitPath_of_no_slash e (h e (by simp))
    | cons e2 es2 =>
      have h1 := splitPath_of_no_slash e (h e (by simp))
      have h2 := ih (by simp) (fun x hx => h x (List.mem_cons_of_mem _ hx))
      show splitPath (e ++ '/' :: joinSlash (e2 :: es2)) = _
      rw [splitPath_append_slash, h1, h2]
      rfl

theorem mem_splitPath_no_slash (l : List Char) : ∀ e ∈ splitPath l, '/' ∉ e := by
  induction l with
  | nil => simp [splitPath]
  | cons c cs ih =>
    by_cases hc : c = '/'
    · subst hc
      intro e he
      simp only [splitPath, if_true, List.mem_cons] at he
      rcases he with rfl | he
      · simp
      · exact ih e he
    · obtain ⟨e1, es, h1, h2⟩ := splitPath_cons_of_ne c cs hc
      rw [h2]
      rw [h1] at ih
      intro e he
      simp only [List.mem_cons] at he
      rcases he with rfl | he
      · intro hm
        simp only [List.mem_cons] at hm
        rcases hm with hm | hm
        · exact hc hm.symm
        · exact ih e1 (by simp) hm
      · exact ih e (by simp [he])

end Filepath

namespace Filepath

theorem cleanStep_of_name (rooted : Bool) (stack : List (List Char)) (e : List Char)
    (h1 : e ≠ []) (h2 : e ≠ ['.']) (h3 : e ≠ ['.', '.']) :
    cleanStep rooted stack e = e :: stack := by
  simp [cleanStep, h1, h2, h3]

theorem goodStack_nil (rooted : Bool) : GoodStack rooted [] := by
  refine ⟨?_, ?_, rfl⟩ <;> simp

theorem foldl_cleanStep_concat (rooted : Bool) (stack : List (List Char)) (e : List Char) :
    List.foldl (cleanStep rooted) [] ((e :: stack).reverse) =
      cleanStep rooted (List.foldl (cleanStep rooted) [] stack.reverse) e := by
  simp [List.foldl_append]

theorem cleanStep_good (rooted : Bool) (stack : List (List Char)) (e : List Char)
    (hg : GoodStack rooted stack) (he : '/' ∉ e) : GoodStack rooted (cleanStep rooted stack e) := by
  obtain ⟨hel, hroot, hfix⟩ := hg
  by_cases h1 : e = [] ∨ e = ['.']
  · have : cleanStep rooted stack e = stack := by simp [cleanStep, h1]
    rw [this]
    exact ⟨hel, hroot, hfix⟩
  · have h1a : e ≠ [] := fun h => h1 (Or.inl h)
    have h1b : e ≠ ['.'] := fun h => h1 (Or.inr h)
    by_cases h2 : e = ['.', '.']
    · subst h2
      cases stack with
      | nil =>
        cases rooted with
        | true => simpa [cleanStep] using goodStack_nil true
        | false =>
          have : cleanStep false [] ['.', '.'] = [['.', '.']] := by simp [cleanStep]
          rw [this]
          refine ⟨?_, by simp, ?_⟩
          · intro x hx
            simp only [List.mem_singleton] at hx
            subst hx
            simp
          · simp [cleanStep]
      | cons top below =>
        by_cases ht : top = ['.', '.']
        · subst ht
          cases rooted with
          | true => exact absurd (List.mem_cons_self _ _) (hroot rfl)
          | false =>
            have : cleanStep false (['.', '.'] :: below) ['.', '.'] =
                ['.', '.'] :: ['.', '.'] :: below := by simp [cleanStep]
            rw [this]
            refine ⟨?_, by simp, ?_⟩
            · intro x hx
              simp only [List.mem_cons] at hx
              rcases hx with rfl | hx
              · simp
              · exact hel x (by simpa using hx)
            · rw [foldl_cleanStep_concat, hfix, this]
        · have : cleanStep rooted (top :: below) ['.', '.'] = below := by
            simp [cleanStep, ht]
          rw [this]
          have htop := hel top (List.mem_cons_self _ _)
          refine ⟨fun x hx => hel x (List.mem_cons_of_mem _ hx),
            fun hr hm => hroot hr (List.mem_cons_of_mem _ hm), ?_⟩
          rw [foldl_cleanStep_concat, cleanStep_of_name _ _ _ htop.2.1 htop.2.2 ht] at hfix
          exact (List.cons.inj hfix).2
    · rw [cleanStep_of_name _ _ _ h1a h1b h2]
      refine ⟨?_, ?_, ?_⟩
      · intro x hx
        simp only [List.mem_cons] at hx
        rcases hx with rfl | hx
        · exact ⟨he, h1a, h1b⟩
        · exact hel x hx
      · intro hr hm
        simp only [List.mem_cons] at hm
        rcases hm with hm | hm
        · exact h2 hm.symm
        · exact hroot hr hm
      · rw [foldl_cleanStep_concat, hfix, cleanStep_of_name _ _ _ h1a h1b h2]

theorem foldl_cleanStep_good (rooted : Bool) (es : List (List Char)) (stack : List (List Char))
    (hg : GoodStack rooted stack) (hes : ∀ e ∈ es, '/' ∉ e) :
    GoodStack rooted (List.foldl (cleanStep rooted) stack es) := by
  induction es generalizing stack with
  | nil => exact hg
  | cons e es ih =>
    rw [List.foldl_cons]
    exact ih _ (cleanStep_good rooted stack e hg (hes e (List.mem_cons_self _ _)))
      (fun x hx => hes x (List.mem_cons_of_mem _ hx))

/-- Cleaning the result of `Clean` again gives the same stack. -/
theorem foldl_cleanStep_cleanRender (rooted : Bool) (stack : List (List Char))
    (hg : GoodStack rooted stack) :
    List.foldl (cleanStep rooted) [] (splitPath (cleanRender rooted stack)) = stack := by
  obtain ⟨hel, hroot, hfix⟩ := hg
  have hrev : ∀ e ∈ stack.reverse, '/' ∉ e := fun e he => (hel e (List.mem_reverse.mp he)).1
  cases stack with
  | nil =>
    cases rooted <;> simp [cleanRender, joinSlash, splitPath, cleanStep]
  | cons top below =>
    have hne : (top :: below).reverse ≠ [] := by simp
    cases rooted with
    | true =>
      simp only [cleanRender, if_true]
      have : splitPath ('/' :: joinSlash (top :: below).reverse) =
          [] :: splitPath (joinSlash (top :: below).reverse) := by simp [splitPath]
      rw [this, splitPath_joinSlash _ hne hrev, List.foldl_cons]
      have : cleanStep true [] [] = [] := by simp [cleanStep]
      rw [this, hfix]
    | false =>
      have : cleanRender false (top :: below) = joinSlash (top :: below).reverse := by
        simp [cleanRender]
      rw [this, splitPath_joinSlash _ hne hrev, hfix]

end Filepath

namespace Filepath

theorem Clean_of_ne_empty (path : String) (h : path ≠ "") :
    Clean path = ⟨cleanChars path.data⟩ := by
  simp [Clean, cleanChars, h]

theorem goodStack_of_path (path : List Char) :
    GoodStack (path.head? = some '/')
      (List.foldl (cleanStep (path.head? = some '/')) [] (splitPath path)) :=
  foldl_cleanStep_good _ _ _ (goodStack_nil _) (mem_splitPath_no_slash path)

theorem joinSlash_concat (l : List (List Char)) (f : List Char) (hne : l ≠ []) :
    joinSlash (l ++ [f]) = joinSlash l ++ '/' :: f := by
  induction l with
  | nil => exact absurd rfl hne
  | cons e es ih =>
    cases es with
    | nil => simp [joinSlash]
    | cons e2 es2 =>
      have := ih (by simp)
      simp only [List.cons_append] at this ⊢
      simp only [joinSlash, this, List.append_assoc, List.cons_append]

theorem head?_joinSlash (e : List Char) (es : List (List Char)) (he : e ≠ []) :
    (joinSlash (e :: es)).head? = e.head? := by
  cases e with
  | nil => exact absurd rfl he
  | cons c cs => cases es <;> simp [joinSlash]

/-- The result of `Clean` is not empty, and it starts with the separator exactly when
the path is rooted. -/
theorem cleanRender_head (rooted : Bool) (stack : List (List Char))
    (hg : GoodStack rooted stack) :
    cleanRender rooted stack ≠ [] ∧
      (decide ((cleanRender rooted stack).head? = some '/') = rooted) := by
  obtain ⟨hel, -, -⟩ := hg
  cases rooted with
  | true => simp [cleanRender]
  | false =>
    cases hs : stack.reverse with
    | nil =>
      have : stack = [] := by simpa using hs
      subst this
      simp [cleanRender]
    | cons e es =>
      have hne : stack ≠ [] := by
        intro h
        subst h
        simp at hs
      have hmem : e ∈ stack := List.mem_reverse.mp (by rw [hs]; exact List.mem_cons_self _ _)
      obtain ⟨hslash, hnil, -⟩ := hel e hmem
      have hr : cleanRender false stack = joinSlash (e :: es) := by
        simp [cleanRender, hne, hs]
      rw [hr]
      have hh := head?_joinSlash e es hnil
      cases e with
      | nil => exact absurd rfl hnil
      | cons c cs =>
        have hc : c ≠ '/' := fun h => hslash (by simp [h])
        constructor
        · intro h
          rw [h] at hh
          simp at hh
        · rw [hh]
          simp [hc]

theorem cleanChars_ne_nil (path : List Char) : cleanChars path ≠ [] :=
  (cleanRender_head _ _ (goodStack_of_path path)).1

theorem head?_append_of_ne_nil (a b : List Char) (h : a ≠ []) : (a ++ b).head? = a.head? := by
  cases a with
  | nil => exact absurd rfl h
  | cons c cs => rfl

/-- The stack and the root flag of `Clean` on a non-empty path followed by a separator
and more. -/
theorem cleanChars_append_slash (x c : List Char) (hx : x ≠ []) :
    cleanChars (x ++ '/' :: c) =
      cleanRender (x.head? = some '/')
        (List.foldl (cleanStep (x.head? = some '/'))
          (List.foldl (cleanStep (x.head? = some '/')) [] (splitPath x)) (splitPath c)) := by
  unfold cleanChars
  rw [head?_append_of_ne_nil x _ hx, splitPath_append_slash, List.foldl_append]

/-- Cleaning a cleaned path followed by more is cleaning the path followed by the same. -/
theorem cleanChars_cleanChars_append (x c : List Char) (hx : x ≠ []) :
    cleanChars (cleanChars x ++ '/' :: c) = cleanChars (x ++ '/' :: c) := by
  rw [cleanChars_append_slash x c hx, cleanChars_append_slash _ c (cleanChars_ne_nil x)]
  have hg := goodStack_of_path x
  have hh := (cleanRender_head _ _ hg).2
  have hf := foldl_cleanStep_cleanRender _ _ hg
  unfold cleanChars
  rw [hh, hf]

theorem Clean_ne_empty (path : String) : Clean path ≠ "" := by
  by_cases h : path = ""
  · subst h
    decide
  · rw [Clean_of_ne_empty path h]
    intro hc
    exact cleanChars_ne_nil path.data (congrArg String.data hc)

theorem data_ne_nil_of_ne_empty (s : String) (h : s ≠ "") : s.data ≠ [] :=
  fun hd => h (String.ext hd)

theorem append_slash_ne_empty (a b : String) : a ++ "/" ++ b ≠ "" := by
  intro h
  have := congrArg String.data h
  simp at this

theorem Clean_Clean_append (x c : String) (hx : x ≠ "") :
    Clean (Clean x ++ "/" ++ c) = Clean (x ++ "/" ++ c) := by
  rw [Clean_of_ne_empty _ (append_slash_ne_empty _ _),
    Clean_of_ne_empty _ (append_slash_ne_empty _ _), Clean_of_ne_empty x hx]
  apply String.ext
  have h := cleanChars_cleanChars_append x.data c.data (data_ne_nil_of_ne_empty x hx)
  have hs : ("/" : String).data = ['/'] := rfl
  simp only [String.data_append, hs, List.append_assoc, List.singleton_append]
  exact h

theorem Join_pair (a b : String) (ha : a ≠ "") : Join [a, b] = Clean (a ++ "/" ++ b) := by
  simp only [Join, ha, if_false]
  rfl

theorem Join_triple (a b c : String) (ha : a ≠ "") :
    Join [a, b, c] = Clean (a ++ "/" ++ b ++ "/" ++ c) := by
  simp only [Join, ha, if_false]
  rfl

theorem Join_cons_empty (es : List String) : Join ("" :: es) = Join es := by
  simp [Join]

theorem Join_single (a : String) : Join [a] = if a = "" then "" else Clean a := by
  by_cases ha : a = ""
  · simp [Join, ha]
  · simp only [Join, ha, if_false]
    rfl

/-- Joining in two steps is joining in one step. -/
theorem Join_Join (a b c : String) : Join [Join [a, b], c] = Join [a, b, c] := by
  by_cases ha : a = ""
  · subst ha
    rw [Join_cons_empty, Join_cons_empty]
    by_cases hb : b = ""
    · subst hb
      rw [Join_cons_empty]
      have : Join [] = "" := rfl
      rw [this, Join_cons_empty]
    · rw [Join_single, if_neg hb, Join_pair _ _ (Clean_ne_empty b), Join_pair _ _ hb,
        Clean_Clean_append _ _ hb]
  · rw [Join_pair a b ha, Join_pair _ _ (Clean_ne_empty _), Join_triple a b c ha,
      Clean_Clean_append _ _ (append_slash_ne_empty a b)]

end Filepath

namespace Filepath

/-- The result of `Clean` once one more name is kept on the stack. -/
theorem cleanRender_push (rooted : Bool) (stack : List (List Char)) (f : List Char)
    (hg : GoodStack rooted stack) :
    cleanRender rooted (f :: stack) =
      if cleanRender rooted stack = ['.'] then f
      else if cleanRender rooted stack = ['/'] then '/' :: f
      else cleanRender rooted stack ++ '/' :: f := by
  obtain ⟨hel, -, -⟩ := hg
  cases hs : stack.reverse with
  | nil =>
    have : stack = [] := by simpa using hs
    subst this
    cases rooted <;> simp [cleanRender, joinSlash]
  | cons e es =>
    have hne : stack ≠ [] := by
      intro h
      subst h
      simp at hs
    have hrev : ∀ x ∈ e :: es, '/' ∉ x := by
      intro x hx
      rw [← hs] at hx
      exact (hel x (List.mem_reverse.mp hx)).1
    have hsplit := splitPath_joinSlash (e :: es) (by simp) hrev
    have hmem : ∀ x, x ∈ e :: es → x ≠ [] ∧ x ≠ ['.'] := by
      intro x hx
      rw [← hs] at hx
      exact (hel x (List.mem_reverse.mp hx)).2
    have hnotdot : joinSlash (e :: es) ≠ ['.'] := by
      intro h
      rw [h] at hsplit
      have h2 : [['.']] = e :: es := by simpa [splitPath] using hsplit
      exact (hmem ['.'] (by rw [← h2]; simp)).2 rfl
    have hnotnil : joinSlash (e :: es) ≠ [] := by
      intro h
      rw [h] at hsplit
      have h2 : [[]] = e :: es := by simpa [splitPath] using hsplit
      exact (hmem [] (by rw [← h2]; simp)).1 rfl
    have hnotslash : joinSlash (e :: es) ≠ ['/'] := by
      intro h
      rw [h] at hsplit
      have h2 : [[], []] = e :: es := by simpa [splitPath] using hsplit
      exact (hmem [] (by rw [← h2]; simp)).1 rfl
    have hpush : joinSlash ((f :: stack).reverse) = joinSlash (e :: es) ++ '/' :: f := by
      rw [List.reverse_cons, hs, joinSlash_concat _ _ (by simp)]
    cases rooted with
    | true =>
      simp only [cleanRender, if_true, hpush, hs]
      simp [hnotnil]
    | false =>
      have h1 : cleanRender false stack = joinSlash (e :: es) := by
        simp [cleanRender, hne, hs]
      have h2 : cleanRender false (f :: stack) = joinSlash (e :: es) ++ '/' :: f := by
        simp only [cleanRender, Bool.false_eq_true, if_false, hpush]
        simp
      rw [h1, h2, if_neg hnotdot, if_neg hnotslash]

/-- Cleaning a non-empty path followed by a separator and a name. -/
theorem cleanChars_child (x f : List Char) (hx : x ≠ []) (hslash : '/' ∉ f)
    (h1 : f ≠ []) (h2 : f ≠ ['.']) (h3 : f ≠ ['.', '.']) :
    cleanChars (x ++ '/' :: f) =
      if cleanChars x = ['.'] then f
      else if cleanChars x = ['/'] then '/' :: f
      else cleanChars x ++ '/' :: f := by
  rw [cleanChars_append_slash x f hx, splitPath_of_no_slash f hslash]
  simp only [List.foldl_cons, List.foldl_nil]
  rw [cleanStep_of_name _ _ _ h1 h2 h3, cleanRender_push _ _ _ (goodStack_of_path x)]
  rfl

/-- Cleaning a name gives the name. -/
theorem cleanChars_name (f : List Char) (hslash : '/' ∉ f)
    (h1 : f ≠ []) (h2 : f ≠ ['.']) (h3 : f ≠ ['.', '.']) : cleanChars f = f := by
  have hh : f.head? ≠ some '/' := by
    cases f with
    | nil => exact absurd rfl h1
    | cons c cs =>
      intro h
      simp only [List.head?_cons, Option.some.injEq] at h
      exact hslash (by simp [h])
  unfold cleanChars
  rw [splitPath_of_no_slash f hslash]
  simp only [List.foldl_cons, List.foldl_nil]
  rw [cleanStep_of_name _ _ _ h1 h2 h3]
  simp [cleanRender, hh, joinSlash]

theorem String.mk_eq_iff (l : List Char) (s : String) : (⟨l⟩ : String) = s ↔ l = s.data := by
  constructor
  · intro h
    rw [← h]
  · intro h
    exact String.ext h

/-- The path `Join` gives for a directory and a name is the entry of that name in the
cleaned directory. -/
theorem Join_child (dir name : String) (hslash : '/' ∉ name.data)
    (h1 : name ≠ "") (h2 : name ≠ ".") (h3 : name ≠ "..") :
    Join [dir, name] = childOf (Clean dir) name := by
  have c1 : name.data ≠ [] := data_ne_nil_of_ne_empty name h1
  have c2 : name.data ≠ ['.'] := fun h => h2 (String.ext h)
  have c3 : name.data ≠ ['.', '.'] := fun h => h3 (String.ext h)
  by_cases hd : dir = ""
  · subst hd
    rw [Join_cons_empty, Join_single, if_neg h1, Clean_of_ne_empty name h1,
      cleanChars_name _ hslash c1 c2 c3]
    have : Clean "" = "." := by decide
    rw [this]
    simp [childOf]
  · rw [Join_pair dir name hd, Clean_of_ne_empty _ (append_slash_ne_empty _ _),
      Clean_of_ne_empty dir hd]
    have hs : ("/" : String).data = ['/'] := rfl
    have hx := cleanChars_child dir.data name.data (data_ne_nil_of_ne_empty dir hd) hslash c1 c2 c3
    have hdata : (dir ++ "/" ++ name).data = dir.data ++ '/' :: name.data := by
      simp [String.data_append, hs]
    rw [hdata, hx]
    unfold childOf
    have e1 : ((⟨cleanChars dir.data⟩ : String) = ".") ↔ cleanChars dir.data = ['.'] :=
      String.mk_eq_iff _ _
    have e2 : ((⟨cleanChars dir.data⟩ : String) = "/") ↔ cleanChars dir.data = ['/'] :=
      String.mk_eq_iff _ _
    by_cases hc1 : cleanChars dir.data = ['.']
    · rw [if_pos hc1, if_pos (e1.mpr hc1)]
    · rw [if_neg hc1, if_neg (fun h => hc1 (e1.mp h))]
      by_cases hc2 : cleanChars dir.data = ['/']
      · rw [if_pos hc2, if_pos (e2.mpr hc2)]
        apply String.ext
        simp [String.data_append, hs]
      · rw [if_neg hc2, if_neg (fun h => hc2 (e2.mp h))]
        apply String.ext
        simp [String.data_append, hs]

end Filepath

/-! ## The paths of the archives -/

theorem underscore_mem_appZipFilename (name owner : String) :
    '_' ∈ (appZipFilename name owner).data := by
  have hs : ("_" : String).data = ['_'] := rfl
  simp [appZipFilename, String.data_append, hs]

theorem slash_mem_appZipFilename_iff (name owner : String) :
    '/' ∈ (appZipFilename name owner).data ↔ '/' ∈ name.data := by
  have h1 : ("_" : String).data = ['_'] := rfl
  have h2 : (".zip" : String).data = ['.', 'z', 'i', 'p'] := rfl
  have h3 : '/' ∉ (replaceUserStoreDomainDelimiter owner).data := by
    rw [replaceUserStoreDomainDelimiter_data]
    intro hmem
    obtain ⟨c, -, hc⟩ := List.mem_map.mp hmem
    by_cases h : c = '/'
    · simp [h] at hc
    · simp [h] at hc
  simp [appZipFilename, String.data_append, h1, h2, h3]

/-- C13, as amended: for every owner and every application name without `/`, the zip
file name `WriteApplicationToZip` computes, and gives to its first step, contains no
`/`; so, with `filepath.Join` of a system whose separator is `/`, every final archive
is the entry of that name in the cleaned `zipLocationPath`, and it is created there
once the first two steps succeed. -/
theorem WriteApplicationToZip_direct_child (env : Env) (name owner zipLocationPath : String)
    (resp : Option Response) (hname : '/' ∉ name.data)
    (hjoin : ∀ l, env.filepathJoin l = Filepath.Join l) :
    '/' ∉ (replaceUserStoreDomainDelimiter owner ++ "_" ++ name ++ ".zip").data ∧
      (WriteApplicationToZip env name owner zipLocationPath resp).trace.head? =
        some (.WriteResponseToTempZip
          (replaceUserStoreDomainDelimiter owner ++ "_" ++ name ++ ".zip") resp) ∧
      (∀ tmp fin mf md, Event.IncludeMetaFileToZip tmp fin mf md ∈
          (WriteApplicationToZip env name owner zipLocationPath resp).trace →
        fin = Filepath.childOf (Filepath.Clean zipLocationPath)
          (replaceUserStoreDomainDelimiter owner ++ "_" ++ name ++ ".zip")) ∧
      ((env.WriteResponseToTempZip
            (replaceUserStoreDomainDelimiter owner ++ "_" ++ name ++ ".zip") resp).2 = none →
        env.CreateDirIfNotExist zipLocationPath = none →
        ∃ tmp mf md, Event.IncludeMetaFileToZip tmp
            (Filepath.childOf (Filepath.Clean zipLocationPath)
              (replaceUserStoreDomainDelimiter owner ++ "_" ++ name ++ ".zip")) mf md ∈
          (WriteApplicationToZip env name owner zipLocationPath resp).trace) := by
  have hzip : replaceUserStoreDomainDelimiter owner ++ "_" ++ name ++ ".zip" =
      appZipFilename name owner := rfl
  rw [hzip]
  have hno : '/' ∉ (appZipFilename name owner).data :=
    fun h => hname ((slash_mem_appZipFilename_iff name owner).mp h)
  have hu := underscore_mem_appZipFilename name owner
  have h1 : appZipFilename name owner ≠ "" := by
    intro h
    rw [h] at hu
    simp at hu
  have h2 : appZipFilename name owner ≠ "." := by
    intro h
    rw [h] at hu
    simp at hu
  have h3 : appZipFilename name owner ≠ ".." := by
    intro h
    rw [h] at hu
    simp at hu
  have hfin : env.filepathJoin [zipLocationPath, appZipFilename name owner] =
      Filepath.childOf (Filepath.Clean zipLocationPath) (appZipFilename name owner) := by
    rw [hjoin, Filepath.Join_child _ _ hno h1 h2 h3]
  refine ⟨hno, WriteApplicationToZip_head env name owner zipLocationPath resp, ?_, ?_⟩
  · intro tmp fin mf md
    rw [WriteApplicationToZip_eq, hfin]
    split
    · simp
    · split
      · simp
      · split <;> (simp; intro _ h _ _; exact h)
  · intro e1 e2
    rw [WriteApplicationToZip_eq, hfin]
    simp only [e1, e2]
    split <;>
      exact ⟨(env.WriteResponseToTempZip (appZipFilename name owner) resp).1,
        env.MetaFileApplication, appMetaData name owner, by simp⟩

theorem WriteApplicationToZip_direct_child_witness :
    '/' ∉ (replaceUserStoreDomainDelimiter "DOM/admin" ++ "_" ++ "testApp" ++ ".zip").data ∧
      (WriteApplicationToZip unixEnv "testApp" "DOM/admin" "./exported//apps/" none).trace.head? =
        some (.WriteResponseToTempZip
          (replaceUserStoreDomainDelimiter "DOM/admin" ++ "_" ++ "testApp" ++ ".zip") none) ∧
      (∀ tmp fin mf md, Event.IncludeMetaFileToZip tmp fin mf md ∈
          (WriteApplicationToZip unixEnv "testApp" "DOM/admin" "./exported//apps/" none).trace →
        fin = Filepath.childOf (Filepath.Clean "./exported//apps/")
          (replaceUserStoreDomainDelimiter "DOM/admin" ++ "_" ++ "testApp" ++ ".zip")) ∧
      ((unixEnv.WriteResponseToTempZip
            (replaceUserStoreDomainDelimiter "DOM/admin" ++ "_" ++ "testApp" ++ ".zip") none).2 =
          none →
        unixEnv.CreateDirIfNotExist "./exported//apps/" = none →
        ∃ tmp mf md, Event.IncludeMetaFileToZip tmp
            (Filepath.childOf (Filepath.Clean "./exported//apps/")
              (replaceUserStoreDomainDelimiter "DOM/admin" ++ "_" ++ "testApp" ++ ".zip")) mf md ∈
          (WriteApplicationToZip unixEnv "testApp" "DOM/admin" "./exported//apps/" none).trace) :=
  WriteApplicationToZip_direct_child unixEnv "testApp" "DOM/admin" "./exported//apps/" none
    (by decide) (fun _ => rfl)

/-- C13, as stated, fails: for the application name `a/b` of the owner `admin` the zip
file name is `admin_a/b.zip`, which contains `/`, and the final archive is
`exported/apps/admin_a/b.zip`, an entry of the directory `exported/apps/admin_a`. -/
theorem WriteApplicationToZip_name_with_slash :
    (WriteApplicationToZip unixEnv "a/b" "admin" "exported/apps" none).trace =
        [.WriteResponseToTempZip "admin_a/b.zip" none,
          .CreateDirIfNotExist "exported/apps",
          .IncludeMetaFileToZip "/tmp/admin_a/b.zip" "exported/apps/admin_a/b.zip"
            "application_meta.yaml" ⟨"a/b", "admin", ⟨⟨true, true, false, true⟩⟩⟩,
          .Stdout "Successfully exported Application!\n",
          .Stdout "Find the exported Application at exported/apps/admin_a/b.zip\n"] ∧
      '/' ∈ ("admin_a/b.zip" : String).data ∧
      "exported/apps/admin_a/b.zip" = Filepath.childOf "exported/apps/admin_a" "b.zip" ∧
      '/' ∉ ("b.zip" : String).data ∧
      Filepath.Clean "exported/apps" = "exported/apps" ∧
      "exported/apps" ≠ "exported/apps/admin_a" := by
  refine ⟨?_, ?_, ?_, ?_, ?_, ?_⟩ <;> decide

/-- C16: on a response, and with `filepath.Join` of a system whose separator is `/`,
`WriteToZip` first stats the directory `filepath.Join(utils.ExportDirectory,
environment)`, calls `os.Mkdir`, on that directory only, exactly when the stat reports
that it does not exist, and makes one call of `ioutil.WriteFile`, with the body of the
response as data and `filepath.Join(utils.ExportDirectory, environment, name + "_" +
version + ".zip")` as file, `MyAPI_1.0.0.zip` for the API `MyAPI` of version `1.0.0`. -/
theorem WriteToZip_file (env : Env) (name version environment : String) (r : Response)
    (hjoin : ∀ l, env.filepathJoin l = Filepath.Join l) :
    fileWritesOf (WriteToZip env name version environment (some r)).trace =
        [(Filepath.Join [env.ExportDirectory, environment, name ++ "_" ++ version ++ ".zip"],
          r.Body)] ∧
      (WriteToZip env name version environment (some r)).trace.head? =
        some (.osStat (Filepath.Join [env.ExportDirectory, environment])) ∧
      ((∃ perm, Event.osMkdir (Filepath.Join [env.ExportDirectory, environment]) perm ∈
          (WriteToZip env name version environment (some r)).trace) ↔
        env.osStatIsNotExist (Filepath.Join [env.ExportDirectory, environment]) = true) ∧
      (∀ p perm, Event.osMkdir p perm ∈ (WriteToZip env name version environment (some r)).trace →
        p = Filepath.Join [env.ExportDirectory, environment]) ∧
      "MyAPI" ++ "_" ++ "1.0.0" ++ ".zip" = "MyAPI_1.0.0.zip" := by
  have hdir : exportDirectoryOf env environment =
      Filepath.Join [env.ExportDirectory, environment] := by
    simp [exportDirectoryOf, hjoin]
  have hfile : exportFileOf env name version environment =
      Filepath.Join [env.ExportDirectory, environment, name ++ "_" ++ version ++ ".zip"] := by
    simp only [exportFileOf, exportDirectoryOf, hjoin]
    exact Filepath.Join_Join _ _ _
  rw [WriteToZip_eq, hdir, hfile]
  refine ⟨?_, rfl, ?_, ?_, by decide⟩
  · cases env.osStatIsNotExist (Filepath.Join [env.ExportDirectory, environment]) <;>
      cases env.ioutilWriteFile
        (Filepath.Join [env.ExportDirectory, environment, name ++ "_" ++ version ++ ".zip"])
        r.Body 0o644 <;> rfl
  · cases env.osStatIsNotExist (Filepath.Join [env.ExportDirectory, environment]) <;>
      cases env.ioutilWriteFile
        (Filepath.Join [env.ExportDirectory, environment, name ++ "_" ++ version ++ ".zip"])
        r.Body 0o644 <;> simp
  · intro p perm
    cases env.osStatIsNotExist (Filepath.Join [env.ExportDirectory, environment]) <;>
      cases env.ioutilWriteFile
        (Filepath.Join [env.ExportDirectory, environment, name ++ "_" ++ version ++ ".zip"])
        r.Body 0o644 <;> simp <;> intro h _ <;> exact h

theorem WriteToZip_file_witness :
    fileWritesOf (WriteToZip unixEnv "MyAPI" "1.0.0" "dev"
        (some ⟨200, "200 OK", [80, 75], ""⟩)).trace =
        [(Filepath.Join [unixEnv.ExportDirectory, "dev", "MyAPI" ++ "_" ++ "1.0.0" ++ ".zip"],
          [80, 75])] ∧
      (WriteToZip unixEnv "MyAPI" "1.0.0" "dev" (some ⟨200, "200 OK", [80, 75], ""⟩)).trace.head? =
        some (.osStat (Filepath.Join [unixEnv.ExportDirectory, "dev"])) ∧
      ((∃ perm, Event.osMkdir (Filepath.Join [unixEnv.ExportDirectory, "dev"]) perm ∈
          (WriteToZip unixEnv "MyAPI" "1.0.0" "dev" (some ⟨200, "200 OK", [80, 75], ""⟩)).trace) ↔
        unixEnv.osStatIsNotExist (Filepath.Join [unixEnv.ExportDirectory, "dev"]) = true) ∧
      (∀ p perm, Event.osMkdir p perm ∈
          (WriteToZip unixEnv "MyAPI" "1.0.0" "dev" (some ⟨200, "200 OK", [80, 75], ""⟩)).trace →
        p = Filepath.Join [unixEnv.ExportDirectory, "dev"]) ∧
      "MyAPI" ++ "_" ++ "1.0.0" ++ ".zip" = "MyAPI_1.0.0.zip" :=
  WriteToZip_file unixEnv "MyAPI" "1.0.0" "dev" ⟨200, "200 OK", [80, 75], ""⟩ (fun _ => rfl)

/-! ## The validations of keys, subscriptions and deletion -/

theorem assertEqual_append {α : Type} [DecidableEq α] (t : T) (a b : α) (msg : String) :
    assertEqual t a b msg = t ++ (if a = b then [] else [msg]) := by
  unfold assertEqual
  by_cases h : a = b <;> simp [h]

theorem assertNotEqual_append {α : Type} [DecidableEq α] (t : T) (a b : α)
    (msgAndArgs : List String) :
    assertNotEqual t a b msgAndArgs =
      t ++ (if a = b then
        [if msgAndArgs = [] then "NotEqual" else " ".intercalate msgAndArgs] else []) := by
  unfold assertNotEqual
  by_cases h : a = b <;> simp [h]

/-- A loop whose rounds only add failures adds the failures of all rounds. -/
theorem foldl_appending {α : Type} (step : T → α → T) (f : α → List String)
    (h : ∀ t x, step t x = t ++ f x) (t : T) (l : List α) :
    List.foldl step t l = t ++ List.foldl step [] l := by
  induction l generalizing t with
  | nil => simp
  | cons x l ih =>
    rw [List.foldl_cons, List.foldl_cons, ih (step t x), ih (step [] x), h t x, h [] x]
    simp

theorem foldl_appending_eq_self_iff {α : Type} (step : T → α → T) (f : α → List String)
    (h : ∀ t x, step t x = t ++ f x) (t : T) (l : List α) :
    List.foldl step t l = t ↔ ∀ x ∈ l, f x = [] := by
  rw [foldl_appending step f h t l, List.append_right_eq_self]
  induction l with
  | nil => simp
  | cons x l ih =>
    rw [List.foldl_cons, foldl_appending step f h (step [] x) l, h [] x]
    simp [ih]

theorem addAppsLoop_calls {κ ρ : Type} (AddApp : Nat → Application κ ρ)
    (adminUsername adminPassword : String) (k : Nat) :
    ∀ (appCount : Nat) (application : Option (Application κ ρ)) (calls : List TestCall),
      appCount + k = numberOfApps + 1 →
      (addAppsLoop AddApp adminUsername adminPassword appCount application calls).2 =
        calls ++ List.replicate k (.AddApp adminUsername adminPassword) := by
  induction k with
  | zero =>
    intro appCount application calls h
    rw [addAppsLoop]
    have : ¬ appCount ≤ numberOfApps := by omega
    simp [this]
  | succ k ih =>
    intro appCount application calls h
    rw [addAppsLoop]
    have : appCount ≤ numberOfApps := by omega
    simp only [this, if_true]
    rw [ih (appCount + 1) _ _ (by omega)]
    simp [List.replicate_succ]

/-- C24, on the code: the set-up loop of `TestDeleteAppSuperTenantUser` runs for the
values 0 to `numberOfApps` of its counter, so it calls `testutils.AddApp`
`numberOfApps + 1` times, that is 6 times and not 5, before the application that is to
be deleted is added. -/
theorem TestDeleteAppSuperTenantUser_calls {κ ρ υ : Type}
    (superAdminUser superAdminPassword : String)
    (AddApp : Nat → Application κ ρ) (AddApplicationWithoutCleaning : Application κ ρ)
    (bits : Nat) (GetApplications : Nat → Option (ApplicationList κ ρ υ)) (t : T) :
    (TestDeleteAppSuperTenantUser superAdminUser superAdminPassword AddApp
        AddApplicationWithoutCleaning bits GetApplications t).1 =
      List.replicate (numberOfApps + 1) (.AddApp superAdminUser superAdminPassword) ++
        [.AddApplicationWithoutCleaning superAdminUser superAdminPassword,
          .ValidateAppDelete] ∧
    ((TestDeleteAppSuperTenantUser superAdminUser superAdminPassword AddApp
        AddApplicationWithoutCleaning bits GetApplications t).1.takeWhile
      (fun c => decide (c = .AddApp superAdminUser superAdminPassword))).length = 6 ∧
    6 ≠ numberOfApps := by
  have h := addAppsLoop_calls AddApp superAdminUser superAdminPassword (numberOfApps + 1)
    0 none [] (by omega)
  have hcalls : (TestDeleteAppSuperTenantUser superAdminUser superAdminPassword AddApp
        AddApplicationWithoutCleaning bits GetApplications t).1 =
      List.replicate (numberOfApps + 1) (.AddApp superAdminUser superAdminPassword) ++
        [.AddApplicationWithoutCleaning superAdminUser superAdminPassword,
          .ValidateAppDelete] := by
    simp only [TestDeleteAppSuperTenantUser, h]
    simp
  refine ⟨hcalls, ?_, by decide⟩
  rw [hcalls]
  simp [numberOfApps, List.replicate, List.takeWhile]

theorem wrapInt_of_range (bits : Nat) (x : Int) (hb : 0 < bits)
    (h1 : -(2 ^ (bits - 1)) ≤ x) (h2 : x < 2 ^ (bits - 1)) : wrapInt bits x = x := by
  unfold wrapInt
  have hp : (2 : Int) ^ bits = 2 * 2 ^ (bits - 1) := by
    obtain ⟨k, rfl⟩ : ∃ k, bits = k + 1 := ⟨bits - 1, by omega⟩
    simp only [Nat.add_sub_cancel, pow_succ]
    ring
  rw [hp]
  generalize (2 : Int) ^ (bits - 1) = h at *
  rw [Int.emod_eq_of_lt (by omega) (by omega)]
  omega

theorem ValidateApplicationIsDeleted_eq_self_iff {κ ρ υ : Type} (t : T)
    (application : Application κ ρ) (after : ApplicationList κ ρ υ) :
    ∃ r, ValidateApplicationIsDeleted t application (some after) = some r ∧
      (r = t ↔ ∀ existing ∈ after.List.elems,
        existing.ApplicationID ≠ application.ApplicationID) := by
  refine ⟨_, rfl, ?_⟩
  rw [foldl_appending_eq_self_iff _
    (fun existing : Application κ ρ =>
      if existing.ApplicationID = application.ApplicationID then
        [if (["API delete is not successful"] : List String) = [] then "NotEqual"
          else " ".intercalate ["API delete is not successful"]]
      else [])
    (fun t x => assertNotEqual_append t _ _ _)]
  constructor
  · intro h x hx heq
    have := h x hx
    simp [heq] at this
  · intro h x hx
    simp [h x hx]

/-- C23: when both calls of `GetApplications` return a list, `ValidateAppDelete` returns,
and it records no failure if and only if the count before the delete equals the count
after the delete plus one, computed in the type `int`, and no application of the list
fetched after the delete has the `ApplicationID` of the deleted application; the sum
in the type `int` is the sum of the integers unless it exceeds the type. -/
theorem ValidateAppDelete_iff {κ ρ υ : Type} (bits : Nat)
    (GetApplications : Nat → Option (ApplicationList κ ρ υ)) (t : T)
    (args : AppImportExportTestArgs κ ρ) (before after : ApplicationList κ ρ υ)
    (h0 : GetApplications 0 = some before) (h1 : GetApplications 1 = some after) :
    ∃ r, ValidateAppDelete bits GetApplications t args = some r ∧
      (r = t ↔
        before.Count = wrapInt bits (after.Count + 1) ∧
        ∀ existing ∈ after.List.elems,
          existing.ApplicationID ≠ args.Application.ApplicationID) ∧
      (0 < bits → -(2 ^ (bits - 1)) ≤ after.Count + 1 → after.Count + 1 < 2 ^ (bits - 1) →
        wrapInt bits (after.Count + 1) = after.Count + 1) := by
  obtain ⟨r, hr, hiff⟩ := ValidateApplicationIsDeleted_eq_self_iff
    (assertEqual t before.Count (wrapInt bits (after.Count + 1))
      "Expected number of Applications not deleted") args.Application after
  refine ⟨r, ?_, ?_, fun hb h1 h2 => wrapInt_of_range bits _ hb h1 h2⟩
  · simp only [ValidateAppDelete, h0, h1]
    exact hr
  · have hr2 : r = assertEqual t before.Count (wrapInt bits (after.Count + 1))
          "Expected number of Applications not deleted" ++
        List.foldl (fun t (existing : Application κ ρ) =>
          assertNotEqual t existing.ApplicationID args.Application.ApplicationID
            ["API delete is not successful"]) [] after.List.elems := by
      have : some r = some (List.foldl (fun t (existing : Application κ ρ) =>
          assertNotEqual t existing.ApplicationID args.Application.ApplicationID
            ["API delete is not successful"])
          (assertEqual t before.Count (wrapInt bits (after.Count + 1))
            "Expected number of Applications not deleted") after.List.elems) := hr.symm.trans rfl
      rw [Option.some.injEq] at this
      rw [this]
      exact foldl_appending _ _ (fun t x => assertNotEqual_append t _ _ _) _ _
    by_cases hc : before.Count = wrapInt bits (after.Count + 1)
    · have ha : assertEqual t before.Count (wrapInt bits (after.Count + 1))
          "Expected number of Applications not deleted" = t := by
        simp [assertEqual, hc]
      rw [ha] at hiff
      rw [hiff]
      simp [hc]
    · constructor
      · intro h
        exfalso
        rw [hr2, assertEqual_append, if_neg hc] at h
        have := congrArg List.length h
        simp at this
      · intro h
        exact absurd h.1 hc

theorem ValidateAppDelete_iff_witness :
    ∃ r, ValidateAppDelete 64
        (fun n => if n = 0 then some (⟨7, some [sampleSourceApp, sampleImportedApp], ()⟩ :
          ApplicationList String String Unit) else some ⟨6, some [sampleImportedApp], ()⟩)
        [] ⟨sampleSourceApp, false, false, false⟩ = some r ∧
      (r = [] ↔
        (7 : Int) = wrapInt 64 ((6 : Int) + 1) ∧
        ∀ existing ∈ GoSlice.elems (some [sampleImportedApp]),
          existing.ApplicationID ≠ sampleSourceApp.ApplicationID) ∧
      (0 < 64 → -(2 ^ (64 - 1)) ≤ (6 : Int) + 1 → (6 : Int) + 1 < 2 ^ (64 - 1) →
        wrapInt 64 ((6 : Int) + 1) = (6 : Int) + 1) :=
  ValidateAppDelete_iff 64
    (fun n => if n = 0 then some (⟨7, some [sampleSourceApp, sampleImportedApp], ()⟩ :
      ApplicationList String String Unit) else some ⟨6, some [sampleImportedApp], ()⟩)
    [] ⟨sampleSourceApp, false, false, false⟩
    ⟨7, some [sampleSourceApp, sampleImportedApp], ()⟩ ⟨6, some [sampleImportedApp], ()⟩ rfl rfl

theorem compareGeneratedKey_append {χ : Type} (ProductionKeyType SandboxKeyType : String)
    (applicationKey1 applicationKey2 : ApplicationKey χ) (t : T) (key : ApplicationKey χ) :
    compareGeneratedKey ProductionKeyType SandboxKeyType applicationKey1 applicationKey2 t key =
      t ++ compareGeneratedKey ProductionKeyType SandboxKeyType applicationKey1 applicationKey2
        [] key := by
  simp only [compareGeneratedKey, assertEqual_append]
  split_ifs <;> simp

theorem compareGeneratedKey_eq_nil_iff {χ : Type} (ProductionKeyType SandboxKeyType : String)
    (applicationKey1 applicationKey2 : ApplicationKey χ) (key : ApplicationKey χ) :
    compareGeneratedKey ProductionKeyType SandboxKeyType applicationKey1 applicationKey2 [] key =
        [] ↔
      ¬ ((key.KeyType = ProductionKeyType ∧
          (applicationKey1.ConsumerKey ≠ key.ConsumerKey ∨
            applicationKey1.ConsumerSecret ≠ key.ConsumerSecret)) ∨
        (key.KeyType = SandboxKeyType ∧
          (applicationKey2.ConsumerKey ≠ key.ConsumerKey ∨
            applicationKey2.ConsumerSecret ≠ key.ConsumerSecret))) := by
  simp only [compareGeneratedKey, assertEqual_append]
  split_ifs <;> simp_all

/-- C22: in `ValidateAppExportImportGeneratedKeys`, after the checks of
`ValidateAppExportImport`: with `SkipKeys` false and a key list, the comparison of the
keys records a failure if and only if some imported key of the production key type
differs in `ConsumerKey` or `ConsumerSecret` from the production key generated in the
source environment, or some imported key of the sandbox key type differs in one of
them from the generated sandbox key; with `SkipKeys` true it records no failure if and
only if the imported key list is equal to the empty `ApplicationKeysList` value. -/
theorem ValidateAppExportImportGeneratedKeys_iff {χ ρ τ : Type} [DecidableEq χ]
    [DecidableEq ρ] [DecidableEq τ] [Inhabited τ]
    (CopyApp : Application (ApplicationKey χ) ρ → Application (ApplicationKey χ) ρ)
    (ProductionKeyType SandboxKeyType : String)
    (GenerateKeys : String → String → ApplicationKey χ)
    (archiveExists : Bool) (importedApp : Application (ApplicationKey χ) ρ)
    (GetOauthKeys : Application (ApplicationKey χ) ρ → Option (ApplicationKeysList χ τ))
    (t : T) (args : AppImportExportTestArgs (ApplicationKey χ) ρ) (appId : String) :
    (args.SkipKeys = false → ∀ keysList, GetOauthKeys importedApp = some keysList →
      ∃ r, ValidateAppExportImportGeneratedKeys CopyApp ProductionKeyType SandboxKeyType
          GenerateKeys archiveExists importedApp GetOauthKeys t args appId = some r ∧
        (r ≠ (ValidateAppExportImport CopyApp archiveExists importedApp t args).1 ↔
          ∃ key ∈ keysList.List.elems,
            (key.KeyType = ProductionKeyType ∧
              ((GenerateKeys appId ProductionKeyType).ConsumerKey ≠ key.ConsumerKey ∨
                (GenerateKeys appId ProductionKeyType).ConsumerSecret ≠ key.ConsumerSecret)) ∨
            (key.KeyType = SandboxKeyType ∧
              ((GenerateKeys appId SandboxKeyType).ConsumerKey ≠ key.ConsumerKey ∨
                (GenerateKeys appId SandboxKeyType).ConsumerSecret ≠ key.ConsumerSecret)))) ∧
    (args.SkipKeys = true →
      ∃ r, ValidateAppExportImportGeneratedKeys CopyApp ProductionKeyType SandboxKeyType
          GenerateKeys archiveExists importedApp GetOauthKeys t args appId = some r ∧
        (r = (ValidateAppExportImport CopyApp archiveExists importedApp t args).1 ↔
          GetOauthKeys importedApp = some { Count := 0, List := none, rest := default })) := by
  constructor
  · intro hskip keysList hkeys
    refine ⟨_, by
      simp only [ValidateAppExportImportGeneratedKeys, ValidateAppExportImport, hskip, hkeys]
      rfl, ?_⟩
    simp only [ValidateAppExportImport]
    rw [Ne, foldl_appending_eq_self_iff _ _
      (fun t key => compareGeneratedKey_append ProductionKeyType SandboxKeyType _ _ t key)]
    simp only [compareGeneratedKey_eq_nil_iff]
    constructor
    · intro h
      by_contra hno
      apply h
      intro key hkey hdiff
      exact hno ⟨key, hkey, hdiff⟩
    · rintro ⟨key, hkey, hdiff⟩ h
      exact h key hkey hdiff
  · intro hskip
    refine ⟨_, by
      simp only [ValidateAppExportImportGeneratedKeys, ValidateAppExportImport, hskip]
      rfl, ?_⟩
    simp only [ValidateAppExportImport]
    exact assertEqual_eq_self_iff _ _ _ _

theorem ValidateAppExportImportGeneratedKeys_iff_witness :
    ∃ r, ValidateAppExportImportGeneratedKeys (fun a : Application (ApplicationKey Unit) String => a)
        "PRODUCTION" "SANDBOX" (fun _ keyType => ⟨keyType, "ck-" ++ keyType, "cs-" ++ keyType, ()⟩)
        true ⟨"77aa", 0, none, none, "SampleApp"⟩
        (fun _ => some (⟨2, some [⟨"PRODUCTION", "ck-PRODUCTION", "cs-PRODUCTION", ()⟩,
          ⟨"SANDBOX", "ck-SANDBOX", "other", ()⟩], ()⟩ : ApplicationKeysList Unit Unit))
        [] ⟨⟨"8f1c", 0, none, none, "SampleApp"⟩, false, false, false⟩ "8f1c" = some r ∧
      (r ≠ (ValidateAppExportImport (fun a : Application (ApplicationKey Unit) String => a)
          true ⟨"77aa", 0, none, none, "SampleApp"⟩ []
          ⟨⟨"8f1c", 0, none, none, "SampleApp"⟩, false, false, false⟩).1 ↔
        ∃ key ∈ GoSlice.elems (some [(⟨"PRODUCTION", "ck-PRODUCTION", "cs-PRODUCTION", ()⟩ :
            ApplicationKey Unit), ⟨"SANDBOX", "ck-SANDBOX", "other", ()⟩]),
          (key.KeyType = "PRODUCTION" ∧
            ("ck-" ++ "PRODUCTION" ≠ key.ConsumerKey ∨ "cs-" ++ "PRODUCTION" ≠ key.ConsumerSecret)) ∨
          (key.KeyType = "SANDBOX" ∧
            ("ck-" ++ "SANDBOX" ≠ key.ConsumerKey ∨ "cs-" ++ "SANDBOX" ≠ key.ConsumerSecret))) :=
  (ValidateAppExportImportGeneratedKeys_iff (fun a : Application (ApplicationKey Unit) String => a)
    "PRODUCTION" "SANDBOX" (fun _ keyType => ⟨keyType, "ck-" ++ keyType, "cs-" ++ keyType, ()⟩)
    true ⟨"77aa", 0, none, none, "SampleApp"⟩
    (fun _ => some (⟨2, some [⟨"PRODUCTION", "ck-PRODUCTION", "cs-PRODUCTION", ()⟩,
      ⟨"SANDBOX", "ck-SANDBOX", "other", ()⟩], ()⟩ : ApplicationKeysList Unit Unit))
    [] ⟨⟨"8f1c", 0, none, none, "SampleApp"⟩, false, false, false⟩ "8f1c").1 rfl
    ⟨2, some [⟨"PRODUCTION", "ck-PRODUCTION", "cs-PRODUCTION", ()⟩,
      ⟨"SANDBOX", "ck-SANDBOX", "other", ()⟩], ()⟩ rfl

/-- What the checks of `ValidateAppExportImportSubscriptions` for skipped subscriptions
do ask for: after the checks of the export and import, they record no failure if and
only if the count of the source list is not 0, the count of the imported list is 0 and
the imported list has no entry; the entries of the source list are not looked at. -/
theorem ValidateAppExportImportSubscriptions_skip {κ ρ ρs σ : Type} [DecidableEq κ]
    [DecidableEq ρ] [DecidableEq ρs] [DecidableEq σ] [Inhabited σ]
    (CopyApp : Application κ ρ → Application κ ρ) (archiveExists : Bool)
    (importedApp : Application κ ρ)
    (SrcGetApplicationSubscriptions DestGetApplicationSubscriptions :
      String → Option (SubscriptionList ρs σ))
    (t : T) (args : AppImportExportTestArgs κ ρ) (appId : String) (importOnly : Bool)
    (env1 env2 : SubscriptionList ρs σ) (hskip : args.SkipSubscriptions = true)
    (h1 : SrcGetApplicationSubscriptions appId = some env1)
    (h2 : DestGetApplicationSubscriptions importedApp.ApplicationID = some env2) :
    ∃ r, ValidateAppExportImportSubscriptions CopyApp archiveExists importedApp
        SrcGetApplicationSubscriptions DestGetApplicationSubscriptions t args appId importOnly =
          some (r, importedApp) ∧
      (r = (if !importOnly then ValidateAppExportImport CopyApp archiveExists importedApp t args
          else ValidateAppImport CopyApp importedApp t args).1 ↔
        env1.Count ≠ 0 ∧ env2.Count = 0 ∧ env2.List.elems = []) := by
  have hne : ∀ (n : Int) (s : String), GoValue.int n ≠ GoValue.string s := by
    intro n s h
    cases h
  have key : ∀ t1 : T,
      (assertEqual
        (assertEqual
          (assertNotEqual
            (assertNotEqual t1 env1.Count 0
              ["The subscriptions count of the app in env 1 is incorrect"])
            (GoValue.int env1.List.elems.length)
            (GoValue.string "The subscriptions list of the app in env 1 is incorrect") [])
          env2.Count 0 "The subscriptions count of the imported app is incorrect")
        (env2.List.elems.length : Int) 0
        "The subscriptions list of the imported app is incorrect" = t1 ↔
      env1.Count ≠ 0 ∧ env2.Count = 0 ∧ env2.List.elems = []) := by
    intro t1
    simp only [assertEqual_append, assertNotEqual_append, if_neg (hne _ _),
      List.append_nil, List.append_assoc, List.append_right_eq_self]
    by_cases c1 : env1.Count = 0 <;> by_cases c2 : env2.Count = 0 <;>
      by_cases c3 : env2.List.elems = [] <;> simp [c1, c2, c3]
  cases importOnly with
  | false =>
    refine ⟨_, ?_, key (ValidateAppsEqual CopyApp (assertTrue t archiveExists []) args importedApp)⟩
    simp [ValidateAppExportImportSubscriptions, ValidateAppExportImport, hskip, h1, h2]
  | true =>
    refine ⟨_, ?_, key (ValidateAppsEqual CopyApp t args importedApp)⟩
    simp [ValidateAppExportImportSubscriptions, ValidateAppImport, hskip, h1, h2]

/-- C21, at the failing input: with skipped subscriptions, a source subscription list of
count 1 without entries, empty or nil, and an imported list of count 0 without entries,
`ValidateAppExportImportSubscriptions` records no failure: the assertion on the length
of the source list compares the length with the text of the message, which are never
equal, and not with 0. -/
theorem ValidateAppExportImportSubscriptions_empty_source_list :
    sampleSourceApp.ApplicationID = "8f1c" ∧
      GoSlice.elems (some [] : GoSlice (Subscription String)) = [] ∧
      ValidateAppExportImportSubscriptions (fun a : Application String String => a) true
          sampleImportedApp
          (fun _ => some (⟨1, some [], ()⟩ : SubscriptionList String Unit))
          (fun _ => some ⟨0, some [], ()⟩)
          [] ⟨sampleSourceApp, false, false, true⟩ "8f1c" false =
        some ([], sampleImportedApp) ∧
      ValidateAppExportImportSubscriptions (fun a : Application String String => a) true
          sampleImportedApp
          (fun _ => some (⟨1, none, ()⟩ : SubscriptionList String Unit))
          (fun _ => some ⟨0, some [], ()⟩)
          [] ⟨sampleSourceApp, false, false, true⟩ "8f1c" true =
        some ([], sampleImportedApp) := by
  refine ⟨rfl, rfl, ?_, ?_⟩ <;> decide

end ApimTooling
